import Mathlib

/-!
Delegation ledger of the monitoring service (`models/delegate.go`).

A shallow embedding of the delegate table of package `models`: the data model
(`Delegate`, `ChannelFor3rd`, `UpdateTransfer`, `Unlock`, `Punish`,
`AnnouceDisposed`), the cost model (`CalcNeedSmtForThisChannel` and its three
sub-totals), the evidence merge (`mergePunish`, `mergeAnnounceDisposed`) and the
submission operation `DelegateNewOrUpdateDelegate`, which is stateful and is
modelled by explicit passing of the store `ModelDB`.

Conventions of the embedding
* `int64`, `int` and `*big.Int` values are `Int`; the one arithmetic operation on
  an `int64` in the source (`SettleBlockNumber - int64(RevealTimeout)`) wraps
  explicitly (`wrapInt64`).
* `[]byte` is `List Byte`; `common.Hash` and `common.Address` are byte lists of
  length 32 and 20.
* `[]*T` is `List T`: the source dereferences every element of these slices
  unconditionally, so the elements are non-nil pointers.
* `time.Now()` is an explicit argument `now`.
* Logging has no effect on the store and is left out.
* A store failure other than "not found" makes the source panic (abort); the
  store of the embedding is an in-memory table whose reads and writes succeed.
  The exception is `DelegateDeleteDelegate`, which returns the errors of its two
  writes: there the answer of the store to each write is an argument.
-/

namespace Models

/-! ## Basic types -/

/-- One byte. -/
abbrev Byte := Fin 256

/-- Type `common.Hash`, a `[32]byte`. -/
def Hash := { l : List Byte // l.length = 32 }

instance : DecidableEq Hash := fun a b => decidable_of_iff (a.val = b.val) Subtype.ext_iff.symm

/-- Type `common.Address`, a `[20]byte`. -/
def Address := { l : List Byte // l.length = 20 }

instance : DecidableEq Address := fun a b => decidable_of_iff (a.val = b.val) Subtype.ext_iff.symm

/-- The zero value of `common.Hash`. -/
def Hash.zero : Hash := ⟨List.replicate 32 0, by simp⟩

/-- The zero value of `common.Address`. -/
def Address.zero : Address := ⟨List.replicate 20 0, by simp⟩

/-- The hash whose 32 bytes all equal `b` (used to write concrete inputs). -/
def Hash.ofByte (b : Byte) : Hash := ⟨List.replicate 32 b, by simp⟩

/-- The address whose 20 bytes all equal `b` (used to write concrete inputs). -/
def Address.ofByte (b : Byte) : Address := ⟨List.replicate 20 b, by simp⟩

/-- A `time.Time`, as a number of ticks; the zero value is `0`. -/
abbrev Time := Nat

/-- Wrap-around of a mathematical integer into the `int64` range. -/
def wrapInt64 (x : Int) : Int := (x + 2 ^ 63) % 2 ^ 64 - 2 ^ 63

/-! ## Status constants -/

def DelegateStatusInit : Int := 0

def DelegateStatusRunning : Int := 1

def DelegateStatusSuccessFinished : Int := 2

def DelegateStatusPartialSuccess : Int := 3

def DelegateStatusSuccessFinishedByOther : Int := 4

def DelegateStatusFailed : Int := 5

def DelegateStatusCooperativeSettled : Int := 6

def DelegateStatusWithdrawed : Int := 7

def TxStatusNotExecute : Int := 0

def TxStatusExecuteSuccessFinished : Int := 1

def TxStatusExecueteErrorFinished : Int := 2

/-! ## Configuration (package `params`) -/

/-- The values of package `params` read by `models/delegate.go`. The package is
not part of the source files at hand, so its values are parameters of every
definition that reads them. -/
structure Params where
  DebugMode : Bool
  RevealTimeout : Int
  SmtUpdateTransfer : Int
  SmtUnlock : Int
  SmtPunish : Int
deriving DecidableEq, Repr

/-! ## Data model -/

/-- Arguments needed to call the contract's update transfer. -/
structure UpdateTransfer where
  Nonce : Int
  TransferAmount : Int
  Locksroot : Hash
  ExtraHash : Hash
  ClosingSignature : List Byte
  NonClosingSignature : List Byte
  TxStatus : Int
  TxError : String
  TxHash : Hash
deriving DecidableEq

/-- The lock descriptor `mtree.Lock` of the channel library (an external
package): expiration block, amount and lock secret hash. -/
structure Lock where
  Expiration : Int
  Amount : Int
  LockSecretHash : Hash
deriving DecidableEq

/-- Arguments needed to call the contract's unlock. `Lock` is a pointer in the
source and may be nil. -/
structure Unlock where
  Lock : Option Lock
  MerkleProof : List Byte
  Signature : List Byte
  TxStatus : Int
  TxError : String
  TxHash : Hash
deriving DecidableEq

/-- Punish evidence delegated to the service; `LockHash` is the hash of the
whole lock. -/
structure Punish where
  LockHash : Hash
  AdditionalHash : Hash
  Signature : List Byte
  TxStatus : Int
  TxError : String
  TxHash : Hash
deriving DecidableEq

/-- Announcement of a disposed lock. -/
structure AnnouceDisposed where
  LockSecretHash : Hash
deriving DecidableEq

/-- The request of a participant: what the third party may do on the channel.
`settleBlockNumber` is the unexported field set by `SetSettleBlockNumber`. -/
structure ChannelFor3rd where
  ChannelIdentifier : Hash
  OpenBlockNumber : Int
  TokenAddress : Address
  PartnerAddress : Address
  UpdateTransfer : UpdateTransfer
  Unlocks : List Unlock
  Punishes : List Punish
  AnnouceDisposed : List AnnouceDisposed
  settleBlockNumber : Int
deriving DecidableEq

/-- A delegation as stored: the request of the application and the result of
its transactions. -/
structure Delegate where
  Key : List Byte
  Address : Models.Address
  PartnerAddress : Models.Address
  ChannelIdentifier : List Byte
  OpenBlockNumber : Int
  SettleBlockNumber : Int
  TokenAddress : Models.Address
  Time : Models.Time
  TxTime : Models.Time
  TxBlockNumber : Int
  MinBlockNumber : Int
  MaxBlockNumber : Int
  Status : Int
  Error : String
  Content : ChannelFor3rd
deriving DecidableEq

/-- A finished delegate, moved out of the active table. -/
structure RemovedDelegate where
  Key : List Byte
  D : Delegate
deriving DecidableEq

/-- The zero value of `UpdateTransfer`. -/
def UpdateTransfer.zero : UpdateTransfer :=
  { Nonce := 0, TransferAmount := 0, Locksroot := Hash.zero, ExtraHash := Hash.zero,
    ClosingSignature := [], NonClosingSignature := [], TxStatus := 0, TxError := "",
    TxHash := Hash.zero }

/-- The zero value of `ChannelFor3rd`. -/
def ChannelFor3rd.zero : ChannelFor3rd :=
  { ChannelIdentifier := Hash.zero, OpenBlockNumber := 0, TokenAddress := Address.zero,
    PartnerAddress := Address.zero, UpdateTransfer := UpdateTransfer.zero, Unlocks := [],
    Punishes := [], AnnouceDisposed := [], settleBlockNumber := 0 }

/-- The zero value of `Delegate` (`var d Delegate`): status `Init`, empty content. -/
def Delegate.zero : Delegate :=
  { Key := [], Address := Address.zero, PartnerAddress := Address.zero, ChannelIdentifier := [],
    OpenBlockNumber := 0, SettleBlockNumber := 0, TokenAddress := Address.zero, Time := 0,
    TxTime := 0, TxBlockNumber := 0, MinBlockNumber := 0, MaxBlockNumber := 0, Status := 0,
    Error := "", Content := ChannelFor3rd.zero }

/-- Method `SetSettleBlockNumber` of `ChannelFor3rd`. -/
def ChannelFor3rd.SetSettleBlockNumber (c : ChannelFor3rd) (blockNumber : Int) : ChannelFor3rd :=
  { c with settleBlockNumber := blockNumber }

/-! ## Cost model -/

/-- How much smt is needed to run the transactions of this channel. The loop
`for range c.Unlocks` is a left fold over the unlock list. -/
def CalcNeedSmtForThisChannel (P : Params) (c : ChannelFor3rd) : Int :=
  let n : Int := 0
  let n := if c.UpdateTransfer.Nonce > 0 then n + P.SmtUpdateTransfer else n
  let n := c.Unlocks.foldl (fun n _ => n + P.SmtUnlock) n
  let n := if c.Punishes.length > 0 then n + P.SmtPunish else n
  n

/-- How much smt is needed to update the balance proof. -/
def CalceNeedSmtForUpdateBalanceProof (P : Params) (c : ChannelFor3rd) : Int :=
  let n : Int := 0
  let n := if c.UpdateTransfer.Nonce > 0 then n + P.SmtUpdateTransfer else n
  n

/-- How much smt is needed to unlock. -/
def CalceNeedSmtForUnlock (P : Params) (c : ChannelFor3rd) : Int :=
  let n : Int := 0
  let n := c.Unlocks.foldl (fun n _ => n + P.SmtUnlock) n
  n

/-- How much smt is needed to punish. -/
def CalceNeedSmtForPunish (P : Params) (c : ChannelFor3rd) : Int :=
  let n : Int := 0
  let n := if c.Punishes.length > 0 then n + P.SmtPunish else n
  n

/-! ## Evidence merge -/

/-- A Go `map[common.Hash]*T`: reading an absent key gives nil (`none`). -/
def GoMap (α : Type) := Hash → Option α

/-- The value `make(map[common.Hash]*T)`. -/
def GoMap.empty {α : Type} : GoMap α := fun _ => none

/-- The assignment `m[k] = v`. -/
def GoMap.set {α : Type} (m : GoMap α) (k : Hash) (v : α) : GoMap α :=
  fun k2 => if k2 = k then some v else m k2

/-- Merge the punishes of `c` into `d`; one that `d` already holds is ignored.
The map `m` is filled from the punishes of `d` before the second loop and is
not written by it. -/
def mergePunish (c : ChannelFor3rd) (d : Delegate) : Delegate :=
  if c.Punishes.length ≤ 0 then d
  else
    let m : GoMap Punish :=
      d.Content.Punishes.foldl (fun m p => m.set p.LockHash p) GoMap.empty
    c.Punishes.foldl
      (fun d p =>
        if (m p.LockHash).isSome then d
        else { d with Content := { d.Content with Punishes := d.Content.Punishes ++ [p] } })
      d

/-- Merge the disposed-lock announcements of `c` into `d`; one that `d` already
holds is ignored. Same shape as `mergePunish`, keyed by `LockSecretHash`. -/
def mergeAnnounceDisposed (c : ChannelFor3rd) (d : Delegate) : Delegate :=
  if c.AnnouceDisposed.length ≤ 0 then d
  else
    let m : GoMap AnnouceDisposed :=
      d.Content.AnnouceDisposed.foldl (fun m p => m.set p.LockSecretHash p) GoMap.empty
    c.AnnouceDisposed.foldl
      (fun d p =>
        if (m p.LockSecretHash).isSome then d
        else
          { d with Content :=
              { d.Content with AnnouceDisposed := d.Content.AnnouceDisposed ++ [p] } })
      d

/-! ## The store -/

/-- Modelled from the spec: the account record of a delegator (type `Account`
is declared in a file of package `models` that is not at hand). Spec, section 3:
one per delegator address, holding the aggregate outstanding credit requirement
`NeedSmt`. -/
structure Account where
  Address : Models.Address
  NeedSmt : Int
deriving DecidableEq

/-- The contents of the database behind `ModelDB`: the bucket of active
delegates (primary key `Key`), the bucket of removed delegates, the bucket of
accounts and the registered monitor triggers `(blockNumber, delegateKey)`.
The mutex `model.lock` has no counterpart: the embedding runs one call at a
time. -/
structure ModelDB where
  delegates : List Delegate
  removedDelegates : List RemovedDelegate
  accounts : List Account
  monitors : List (Int × List Byte)
deriving DecidableEq

/-- A database with empty buckets. -/
def ModelDB.empty : ModelDB :=
  { delegates := [], removedDelegates := [], accounts := [], monitors := [] }

/-- Query `db.One("Key", key, &d)` on the delegate bucket: the record whose
`Key` is `key`, `none` for `storm.ErrNotFound`. -/
def dbOneDelegate (t : List Delegate) (key : List Byte) : Option Delegate :=
  t.find? (fun d => decide (d.Key = key))

/-- Call `db.Save(d)` on the delegate bucket: the record with the primary key
of `d` is replaced, a new key is added. -/
def dbSaveDelegate : List Delegate → Delegate → List Delegate
  | [], d => [d]
  | x :: xs, d => if x.Key = d.Key then d :: xs else x :: dbSaveDelegate xs d

/-- Call `db.Save(a)` on the account bucket (primary key `Address`). -/
def dbSaveAccount : List Account → Account → List Account
  | [], a => [a]
  | x :: xs, a => if x.Address = a.Address then a :: xs else x :: dbSaveAccount xs a

/-- The key of a delegate: the bytes of the channel identifier followed by the
bytes of the delegator address. -/
def delegateKey (cAddr : Hash) (addr : Address) : List Byte :=
  let key : List Byte := []
  let key := key ++ cAddr.val
  let key := key ++ addr.val
  key

/-- The latest delegate stored under `key`; the zero value when there is none. -/
def DelegatetGetByKey (model : ModelDB) (key : List Byte) : Delegate :=
  match dbOneDelegate model.delegates key with
  | none => Delegate.zero
  | some d => d

/-- The latest delegate of `(cAddr, addr)`. -/
def DelegatetGet (model : ModelDB) (cAddr : Hash) (addr : Address) : Delegate :=
  DelegatetGetByKey model (delegateKey cAddr addr)

/-- Modelled from the spec: `AccountGetAccount` is defined in a file of package
`models` that is not at hand. Spec, section 4.5: it loads or lazily creates the
account of `addr`; a created account has credit requirement zero. -/
def AccountGetAccount (model : ModelDB) (addr : Address) : Account :=
  match model.accounts.find? (fun a => decide (a.Address = addr)) with
  | none => { Address := addr, NeedSmt := 0 }
  | some a => a

/-- Modelled from the spec: `DelegateMonitorAdd` is defined in a file of package
`models` that is not at hand. Spec, section 4.4: it records that the delegate
`key` must be looked at when the chain reaches `blockNumber`; triggers are
registered, never deduplicated against each other. -/
def DelegateMonitorAdd (model : ModelDB) (blockNumber : Int) (key : List Byte) : ModelDB :=
  { model with monitors := model.monitors ++ [(blockNumber, key)] }

/-! ## Submission -/

/-- The six assignments `d.Content.X = c.X` of the branch of
`DelegateNewOrUpdateDelegate` taken when the delegate is not running: balance
proof, unlocks and channel linkage are taken from the candidate; punishes,
disposed locks and the unexported `settleBlockNumber` of the stored content
are kept. -/
def overwriteContent (c : ChannelFor3rd) (content : ChannelFor3rd) : ChannelFor3rd :=
  { content with
      UpdateTransfer := c.UpdateTransfer
      Unlocks := c.Unlocks
      ChannelIdentifier := c.ChannelIdentifier
      OpenBlockNumber := c.OpenBlockNumber
      PartnerAddress := c.PartnerAddress
      TokenAddress := c.TokenAddress }

/-- Accept a new delegate `c` of `addr`, or the update of a stored one. The
result is the returned error (`none` for `nil`) and the store after the call.
On the error path nothing but the read `DelegatetGet` has run. -/
def DelegateNewOrUpdateDelegate (P : Params) (now : Time) (model : ModelDB)
    (c : ChannelFor3rd) (addr : Address) : Option String × ModelDB :=
  let channelIdentifier : Hash := c.ChannelIdentifier
  let d : Delegate := DelegatetGet model c.ChannelIdentifier addr
  if !P.DebugMode && decide (d.Status = DelegateStatusInit)
      && decide (d.Content.UpdateTransfer.Nonce > c.UpdateTransfer.Nonce) then
    (some ("only delegate newer nonce ,old nonce="
        ++ toString d.Content.UpdateTransfer.Nonce ++ ",new=" ++ toString c.UpdateTransfer.Nonce),
      model)
  else
    let newsmt : Int := CalcNeedSmtForThisChannel P c
    let d : Delegate := mergePunish c d
    let d : Delegate := mergeAnnounceDisposed c d
    let oldsmt : Int := CalcNeedSmtForThisChannel P d.Content
    let d : Delegate := { d with Time := now }
    let d : Delegate := { d with Key := delegateKey channelIdentifier addr }
    let d : Delegate := { d with ChannelIdentifier := channelIdentifier.val }
    let d : Delegate := { d with OpenBlockNumber := c.OpenBlockNumber }
    let d : Delegate := { d with Address := addr }
    let d : Delegate :=
      if d.Status = DelegateStatusRunning then d
      else
        { d with Content := overwriteContent c d.Content }
    let d : Delegate := { d with TokenAddress := c.TokenAddress }
    let d : Delegate := { d with PartnerAddress := c.PartnerAddress }
    let a : Account := AccountGetAccount model addr
    let a : Account := { a with NeedSmt := a.NeedSmt + newsmt }
    let a : Account := { a with NeedSmt := a.NeedSmt - oldsmt }
    let model : ModelDB := { model with accounts := dbSaveAccount model.accounts a }
    let dm : Delegate × ModelDB :=
      if d.SettleBlockNumber = 0 ∧ c.settleBlockNumber > 0 then
        let d : Delegate := { d with SettleBlockNumber := c.settleBlockNumber }
        let model : ModelDB := DelegateMonitorAdd model d.SettleBlockNumber d.Key
        let model : ModelDB :=
          DelegateMonitorAdd model (wrapInt64 (d.SettleBlockNumber - P.RevealTimeout)) d.Key
        (d, model)
      else (d, model)
    let d : Delegate := dm.1
    let model : ModelDB := dm.2
    let model : ModelDB := { model with delegates := dbSaveDelegate model.delegates d }
    (none, model)

/-- Mark the delegate of `(cAddr, addr)` as running, to deny a new version. The
record read is saved back with `Status` set; the result is the error returned
by the save (`none`, the store of the embedding does not fail) and the store
after the call. When no delegate is stored under the key, the record read is
the zero value, whose `Key` is empty. -/
def MarkDelegateRunning (model : ModelDB) (cAddr : Hash) (addr : Address) :
    Option String × ModelDB :=
  let d := DelegatetGet model cAddr addr
  let d := { d with Status := DelegateStatusRunning }
  (none, { model with delegates := dbSaveDelegate model.delegates d })

/-- The credit requirement stored for `addr` (zero when there is no account). -/
def needSmtOf (model : ModelDB) (addr : Address) : Int :=
  (AccountGetAccount model addr).NeedSmt

/-! ## Archiving -/

/-- The bytes written by `binary.Write(buf, binary.LittleEndian, x)` for an
`int64` `x`: the eight bytes of its two's complement, least significant first. -/
def int64LittleEndian (x : Int) : List Byte :=
  (List.range 8).map
    (fun i => (⟨((x % 2 ^ 64).toNat / 256 ^ i) % 256, Nat.mod_lt _ (by decide)⟩ : Byte))

/-- Call `db.DeleteStruct(d)` on the delegate bucket, a single write of the
store. `fault` is what the store answers when it cannot carry the write out
(an input of the environment): with `some e` the call returns `e` and the
bucket is as before. Otherwise the record with the primary key of `d` is
removed; when there is none the call returns the error "not found" of the
store and the bucket is as before. -/
def dbDeleteStruct (fault : Option String) (t : List Delegate) (d : Delegate) :
    Option String × List Delegate :=
  match fault with
  | some e => (some e, t)
  | none =>
    if t.any (fun x => decide (x.Key = d.Key)) then
      (none, t.filter (fun x => decide (x.Key ≠ d.Key)))
    else (some "not found", t)

/-- The bucket of removed delegates after a successful `db.Save(rd)`: the record
with the primary key of `rd` is replaced, a new key is added. -/
def dbUpsertRemoved : List RemovedDelegate → RemovedDelegate → List RemovedDelegate
  | [], rd => [rd]
  | x :: xs, rd => if x.Key = rd.Key then rd :: xs else x :: dbUpsertRemoved xs rd

/-- Call `db.Save(rd)` on the bucket of removed delegates, a single write of the
store; `fault` as in `dbDeleteStruct`. -/
def dbSaveRemoved (fault : Option String) (t : List RemovedDelegate) (rd : RemovedDelegate) :
    Option String × List RemovedDelegate :=
  match fault with
  | some e => (some e, t)
  | none => (none, dbUpsertRemoved t rd)

/-- Move the delegate `d` from the bucket of delegates to the bucket of removed
delegates. `deleteFault` and `saveFault` are the answers of the store to the
two writes. The result is the returned error and the store after the call. -/
def DelegateDeleteDelegate (deleteFault saveFault : Option String) (model : ModelDB)
    (d : Delegate) : Option String × ModelDB :=
  let rd : RemovedDelegate := { Key := [], D := d }
  let buf : List Byte := []
  let buf : List Byte := buf ++ d.ChannelIdentifier
  let buf : List Byte := buf ++ d.Address.val
  let buf : List Byte := buf ++ int64LittleEndian d.OpenBlockNumber
  let rd : RemovedDelegate := { rd with Key := buf }
  let del : Option String × List Delegate := dbDeleteStruct deleteFault model.delegates d
  let model : ModelDB := { model with delegates := del.2 }
  match del.1 with
  | some err => (some err, model)
  | none =>
    let sav : Option String × List RemovedDelegate :=
      dbSaveRemoved saveFault model.removedDelegates rd
    (sav.1, { model with removedDelegates := sav.2 })

/-- The primary key under which `DelegateDeleteDelegate` archives `d`: channel
identifier, address and little-endian open block number. -/
def removedKey (d : Delegate) : List Byte :=
  d.ChannelIdentifier ++ d.Address.val ++ int64LittleEndian d.OpenBlockNumber

/-! ## Definitions used to state what the operations compute -/

/-- The punishes of the candidate that `mergePunish` appends: those whose
`LockHash` is not the `LockHash` of a stored punish, in the order of the
candidate. -/
def freshPunishes (c : ChannelFor3rd) (d : Delegate) : List Punish :=
  c.Punishes.filter (fun p => decide (p.LockHash ∉ d.Content.Punishes.map (fun q => q.LockHash)))

/-- The announcements of the candidate that `mergeAnnounceDisposed` appends. -/
def freshDisposed (c : ChannelFor3rd) (d : Delegate) : List AnnouceDisposed :=
  c.AnnouceDisposed.filter
    (fun p => decide (p.LockSecretHash ∉ d.Content.AnnouceDisposed.map (fun q => q.LockSecretHash)))

/-- The test of `DelegateNewOrUpdateDelegate` for returning an error, on the
stored delegate `d` and the candidate `c`. -/
def staleNonce (P : Params) (d : Delegate) (c : ChannelFor3rd) : Prop :=
  P.DebugMode = false ∧ d.Status = DelegateStatusInit ∧
    d.Content.UpdateTransfer.Nonce > c.UpdateTransfer.Nonce

instance (P : Params) (d : Delegate) (c : ChannelFor3rd) : Decidable (staleNonce P d c) := by
  unfold staleNonce
  exact inferInstance

/-- The record that an accepted submission saves, from the stored delegate `d0`. -/
def savedDelegate (now : Time) (c : ChannelFor3rd) (addr : Address) (d0 : Delegate) : Delegate :=
  { Key := delegateKey c.ChannelIdentifier addr
    Address := addr
    PartnerAddress := c.PartnerAddress
    ChannelIdentifier := c.ChannelIdentifier.val
    OpenBlockNumber := c.OpenBlockNumber
    SettleBlockNumber :=
      if d0.SettleBlockNumber = 0 ∧ c.settleBlockNumber > 0 then c.settleBlockNumber
      else d0.SettleBlockNumber
    TokenAddress := c.TokenAddress
    Time := now
    TxTime := d0.TxTime
    TxBlockNumber := d0.TxBlockNumber
    MinBlockNumber := d0.MinBlockNumber
    MaxBlockNumber := d0.MaxBlockNumber
    Status := d0.Status
    Error := d0.Error
    Content :=
      if d0.Status = DelegateStatusRunning then (mergeAnnounceDisposed c (mergePunish c d0)).Content
      else overwriteContent c (mergeAnnounceDisposed c (mergePunish c d0)).Content }

/-- The monitor triggers that an accepted submission registers. -/
def addedMonitors (P : Params) (c : ChannelFor3rd) (addr : Address) (d0 : Delegate) :
    List (Int × List Byte) :=
  if d0.SettleBlockNumber = 0 ∧ c.settleBlockNumber > 0 then
    [(c.settleBlockNumber, delegateKey c.ChannelIdentifier addr),
     (wrapInt64 (c.settleBlockNumber - P.RevealTimeout), delegateKey c.ChannelIdentifier addr)]
  else []

/-- The account that an accepted submission saves. -/
def savedAccount (P : Params) (model : ModelDB) (c : ChannelFor3rd) (addr : Address)
    (d0 : Delegate) : Account :=
  { Address := addr
    NeedSmt := (AccountGetAccount model addr).NeedSmt + CalcNeedSmtForThisChannel P c
      - CalcNeedSmtForThisChannel P (mergeAnnounceDisposed c (mergePunish c d0)).Content }

/-- A run of submissions of one delegator, each with its time and candidate,
applied to the store in order (a rejected one leaves the store as it was). -/
def submitAll (P : Params) (addr : Address) (model : ModelDB)
    (subs : List (Time × ChannelFor3rd)) : ModelDB :=
  subs.foldl (fun m s => (DelegateNewOrUpdateDelegate P s.1 m s.2 addr).2) model

/-- The list that a merge stores, for records of any type keyed by `key`: the
stored records, followed by the records of the candidate whose key is not the
key of a stored record. -/
def appendFresh {α : Type} (key : α → Hash) (stored cand : List α) : List α :=
  stored ++ cand.filter (fun p => decide (key p ∉ stored.map key))

/-! ## Concrete inputs -/

/-- A channel identifier. -/
def exChannel : Hash := Hash.ofByte 7

/-- A delegator address. -/
def exAddr : Address := Address.ofByte 9

/-- A punish record whose `LockHash` is made of the byte `b`. -/
def exPunish (b : Byte) : Punish :=
  { LockHash := Hash.ofByte b, AdditionalHash := Hash.zero, Signature := [], TxStatus := 0,
    TxError := "", TxHash := Hash.zero }

/-- A punish record whose `LockHash` is made of the byte `b`, with the given
signature. -/
def exPunishSigned (b : Byte) (sig : List Byte) : Punish :=
  { LockHash := Hash.ofByte b, AdditionalHash := Hash.zero, Signature := sig, TxStatus := 0,
    TxError := "", TxHash := Hash.zero }

/-- An unlock record. -/
def exUnlock : Unlock :=
  { Lock := none, MerkleProof := [], Signature := [], TxStatus := 0, TxError := "",
    TxHash := Hash.zero }

/-- A candidate for `exChannel` with the given nonce, unlocks and punishes. -/
def exCandidate (nonce : Int) (unlocks : List Unlock) (punishes : List Punish) : ChannelFor3rd :=
  { ChannelIdentifier := exChannel, OpenBlockNumber := 1, TokenAddress := Address.zero,
    PartnerAddress := Address.zero,
    UpdateTransfer :=
      { Nonce := nonce, TransferAmount := 0, Locksroot := Hash.zero, ExtraHash := Hash.zero,
        ClosingSignature := [], NonClosingSignature := [], TxStatus := 0, TxError := "",
        TxHash := Hash.zero },
    Unlocks := unlocks, Punishes := punishes, AnnouceDisposed := [], settleBlockNumber := 0 }

/-- Unit costs 100, 10 and 1, reveal timeout 10, debug mode off. -/
def exParams : Params :=
  { DebugMode := false, RevealTimeout := 10, SmtUpdateTransfer := 100, SmtUnlock := 10,
    SmtPunish := 1 }

/-- The store reached from the empty one by one submission for `exChannel` and
`exAddr` with the given nonce, no unlock and no punish. -/
def exStore (P : Params) (now : Time) (nonce : Int) : ModelDB :=
  (DelegateNewOrUpdateDelegate P now ModelDB.empty (exCandidate nonce [] []) exAddr).2

/-- The store of the scenario: submission `A` (nonce 1, no unlock, no punish)
and then submission `B` (nonce 2, two unlocks, no punish) for `exChannel` and
`exAddr`, from the empty store. -/
def exStoreAB (P : Params) (now1 now2 : Time) : ModelDB :=
  (DelegateNewOrUpdateDelegate P now2 (exStore P now1 1)
    (exCandidate 2 [exUnlock, exUnlock] []) exAddr).2

/-- The store `exStore` after `MarkDelegateRunning` on its delegate. -/
def exRunningStore (P : Params) (now : Time) (nonce : Int) : ModelDB :=
  (MarkDelegateRunning (exStore P now nonce) exChannel exAddr).2

/-! ## Lemmas: the evidence merge as a filter -/

/-- After the first loop of a merge the map answers non-nil exactly on the keys
it held before and the keys of the records read. -/
theorem goMap_fill_isSome {α : Type} (key : α → Hash) (l : List α) (m : GoMap α) (h : Hash) :
    ((l.foldl (fun m p => m.set (key p) p) m) h).isSome = true ↔
      (m h).isSome = true ∨ h ∈ l.map key := by
  induction l generalizing m with
  | nil => simp
  | cons x xs ih =>
    rw [List.foldl_cons, ih, List.map_cons, List.mem_cons]
    unfold GoMap.set
    by_cases hx : h = key x
    · simp [hx]
    · simp [hx]

/-- The map filled from a list answers non-nil exactly on the keys of the list. -/
theorem goMap_fill_empty_isSome {α : Type} (key : α → Hash) (l : List α) (h : Hash) :
    ((l.foldl (fun m p => m.set (key p) p) GoMap.empty) h).isSome = true ↔ h ∈ l.map key := by
  rw [goMap_fill_isSome]
  simp [GoMap.empty]

/-- The second loop of `mergePunish`, for any test `skip` that does not change
during the loop: the records that are not skipped are appended in order. -/
theorem punish_loop_eq (skip : Punish → Bool) (l : List Punish) (d : Delegate) :
    l.foldl
        (fun d p =>
          if skip p then d
          else { d with Content := { d.Content with Punishes := d.Content.Punishes ++ [p] } })
        d
      = { d with Content :=
            { d.Content with Punishes := d.Content.Punishes ++ l.filter (fun p => !skip p) } } := by
  induction l generalizing d with
  | nil => simp
  | cons x xs ih =>
    rw [List.foldl_cons, ih]
    by_cases hx : skip x = true
    · simp [hx]
    · simp [hx]

/-- The second loop of `mergeAnnounceDisposed`, as `punish_loop_eq`. -/
theorem disposed_loop_eq (skip : AnnouceDisposed → Bool) (l : List AnnouceDisposed)
    (d : Delegate) :
    l.foldl
        (fun d p =>
          if skip p then d
          else
            { d with Content :=
                { d.Content with AnnouceDisposed := d.Content.AnnouceDisposed ++ [p] } })
        d
      = { d with Content :=
            { d.Content with
                AnnouceDisposed := d.Content.AnnouceDisposed ++ l.filter (fun p => !skip p) } } := by
  induction l generalizing d with
  | nil => simp
  | cons x xs ih =>
    rw [List.foldl_cons, ih]
    by_cases hx : skip x = true
    · simp [hx]
    · simp [hx]

/-- What `mergePunish` computes: only the punish list changes, by appending
`freshPunishes`. -/
theorem mergePunish_eq (c : ChannelFor3rd) (d : Delegate) :
    mergePunish c d
      = { d with Content :=
            { d.Content with Punishes := d.Content.Punishes ++ freshPunishes c d } } := by
  unfold mergePunish freshPunishes
  by_cases hc : c.Punishes.length ≤ 0
  · have : c.Punishes = [] := List.length_eq_zero.mp (Nat.le_zero.mp hc)
    simp [this]
  · rw [if_neg hc]
    have hf : ∀ h : Hash,
        (!((d.Content.Punishes.foldl (fun m q => m.set q.LockHash q) GoMap.empty) h).isSome)
          = decide (h ∉ d.Content.Punishes.map (fun q => q.LockHash)) := by
      intro h
      have := goMap_fill_empty_isSome (fun q : Punish => q.LockHash) d.Content.Punishes h
      by_cases hm : h ∈ d.Content.Punishes.map (fun q => q.LockHash)
      · simp [hm, this.mpr hm]
      · have h2 : ¬ ((d.Content.Punishes.foldl (fun m q => m.set q.LockHash q) GoMap.empty)
            h).isSome = true := fun h3 => hm (this.mp h3)
        simp [hm, h2]
    simp only []
    rw [punish_loop_eq]
    simp only [hf]

/-- What `mergeAnnounceDisposed` computes: only the list of disposed locks
changes, by appending `freshDisposed`. -/
theorem mergeAnnounceDisposed_eq (c : ChannelFor3rd) (d : Delegate) :
    mergeAnnounceDisposed c d
      = { d with Content :=
            { d.Content with
                AnnouceDisposed := d.Content.AnnouceDisposed ++ freshDisposed c d } } := by
  unfold mergeAnnounceDisposed freshDisposed
  by_cases hc : c.AnnouceDisposed.length ≤ 0
  · have : c.AnnouceDisposed = [] := List.length_eq_zero.mp (Nat.le_zero.mp hc)
    simp [this]
  · rw [if_neg hc]
    have hf : ∀ h : Hash,
        (!((d.Content.AnnouceDisposed.foldl (fun m q => m.set q.LockSecretHash q)
            GoMap.empty) h).isSome)
          = decide (h ∉ d.Content.AnnouceDisposed.map (fun q => q.LockSecretHash)) := by
      intro h
      have := goMap_fill_empty_isSome (fun q : AnnouceDisposed => q.LockSecretHash)
        d.Content.AnnouceDisposed h
      by_cases hm : h ∈ d.Content.AnnouceDisposed.map (fun q => q.LockSecretHash)
      · simp [hm, this.mpr hm]
      · have h2 : ¬ ((d.Content.AnnouceDisposed.foldl (fun m q => m.set q.LockSecretHash q)
            GoMap.empty) h).isSome = true := fun h3 => hm (this.mp h3)
        simp [hm, h2]
    simp only []
    rw [disposed_loop_eq]
    simp only [hf]

/-- The loop `for range l { n = n + k }` adds `k` once for each element. -/
theorem foldl_add_const {α : Type} (k : Int) (l : List α) (n : Int) :
    l.foldl (fun n _ => n + k) n = n + (l.length : Int) * k := by
  induction l generalizing n with
  | nil => simp
  | cons x xs ih =>
    rw [List.foldl_cons, ih, List.length_cons]
    push_cast
    ring

/-- A second merge of the same candidate finds no fresh punish. -/
theorem freshPunishes_after_merge (c : ChannelFor3rd) (d : Delegate) :
    freshPunishes c (mergePunish c d) = [] := by
  rw [mergePunish_eq]
  unfold freshPunishes
  rw [List.filter_eq_nil_iff]
  intro p hp
  simp only [List.map_append, List.mem_append, decide_eq_true_eq, not_not]
  by_cases hm : p.LockHash ∈ d.Content.Punishes.map (fun q => q.LockHash)
  · exact Or.inl hm
  · right
    apply List.mem_map_of_mem (fun q : Punish => q.LockHash)
    rw [List.mem_filter]
    exact ⟨hp, by simpa using hm⟩

/-- A second merge of the same candidate finds no fresh announcement. -/
theorem freshDisposed_after_merge (c : ChannelFor3rd) (d : Delegate) :
    freshDisposed c (mergeAnnounceDisposed c d) = [] := by
  rw [mergeAnnounceDisposed_eq]
  unfold freshDisposed
  rw [List.filter_eq_nil_iff]
  intro p hp
  simp only [List.map_append, List.mem_append, decide_eq_true_eq, not_not]
  by_cases hm : p.LockSecretHash ∈ d.Content.AnnouceDisposed.map (fun q => q.LockSecretHash)
  · exact Or.inl hm
  · right
    apply List.mem_map_of_mem (fun q : AnnouceDisposed => q.LockSecretHash)
    rw [List.mem_filter]
    exact ⟨hp, by simpa using hm⟩

/-! ## Lemmas: the store -/

/-- A saved delegate is the one found under its key. -/
theorem dbOneDelegate_save (t : List Delegate) (d : Delegate) :
    dbOneDelegate (dbSaveDelegate t d) d.Key = some d := by
  induction t with
  | nil => simp [dbSaveDelegate, dbOneDelegate]
  | cons x xs ih =>
    unfold dbSaveDelegate
    by_cases hx : x.Key = d.Key
    · simp [hx, dbOneDelegate]
    · rw [if_neg hx]
      unfold dbOneDelegate at ih ⊢
      rw [List.find?_cons]
      simp [hx, ih]

/-- Saving a delegate leaves the records of the other keys as they were. -/
theorem dbOneDelegate_save_other (t : List Delegate) (d : Delegate) (key : List Byte)
    (hk : d.Key ≠ key) :
    dbOneDelegate (dbSaveDelegate t d) key = dbOneDelegate t key := by
  induction t with
  | nil => simp [dbSaveDelegate, dbOneDelegate, hk]
  | cons x xs ih =>
    unfold dbSaveDelegate
    by_cases hx : x.Key = d.Key
    · have hxk : x.Key ≠ key := by rw [hx]; exact hk
      simp [hx, dbOneDelegate, hk, hxk]
    · rw [if_neg hx]
      unfold dbOneDelegate at ih ⊢
      rw [List.find?_cons, List.find?_cons, ih]

/-- A saved account is the one found under its address. -/
theorem find_dbSaveAccount (t : List Account) (a : Account) :
    (dbSaveAccount t a).find? (fun x => decide (x.Address = a.Address)) = some a := by
  induction t with
  | nil => simp [dbSaveAccount]
  | cons x xs ih =>
    unfold dbSaveAccount
    by_cases hx : x.Address = a.Address
    · simp [hx]
    · rw [if_neg hx, List.find?_cons]
      simp [hx, ih]

/-- Saving an account leaves the accounts of the other addresses as they were. -/
theorem find_dbSaveAccount_other (t : List Account) (a : Account) (addr : Address)
    (hk : a.Address ≠ addr) :
    (dbSaveAccount t a).find? (fun x => decide (x.Address = addr))
      = t.find? (fun x => decide (x.Address = addr)) := by
  induction t with
  | nil => simp [dbSaveAccount, hk]
  | cons x xs ih =>
    unfold dbSaveAccount
    by_cases hx : x.Address = a.Address
    · have hxk : x.Address ≠ addr := by rw [hx]; exact hk
      simp [hx, hk, hxk]
    · rw [if_neg hx, List.find?_cons, List.find?_cons, ih]

/-- The account that `AccountGetAccount` returns carries the address asked for. -/
theorem AccountGetAccount_Address (model : ModelDB) (addr : Address) :
    (AccountGetAccount model addr).Address = addr := by
  unfold AccountGetAccount
  split
  · rfl
  · rename_i a h
    have := List.find?_some h
    simpa using this

/-! ## Lemmas: what a submission does to the store -/

/-- A submission with a stale nonce returns an error and the store it was given. -/
theorem submit_reject (P : Params) (now : Time) (model : ModelDB) (c : ChannelFor3rd)
    (addr : Address) (h : staleNonce P (DelegatetGet model c.ChannelIdentifier addr) c) :
    (DelegateNewOrUpdateDelegate P now model c addr).1 ≠ none ∧
      (DelegateNewOrUpdateDelegate P now model c addr).2 = model := by
  obtain ⟨h1, h2, h3⟩ := h
  unfold DelegateNewOrUpdateDelegate
  simp [h1, h2, h3]

/-- A submission without a stale nonce returns no error and saves the account,
the triggers and the delegate given by `savedAccount`, `addedMonitors` and
`savedDelegate`. -/
theorem submit_accept (P : Params) (now : Time) (model : ModelDB) (c : ChannelFor3rd)
    (addr : Address) (h : ¬ staleNonce P (DelegatetGet model c.ChannelIdentifier addr) c) :
    DelegateNewOrUpdateDelegate P now model c addr
      = (none,
          { delegates :=
              dbSaveDelegate model.delegates
                (savedDelegate now c addr (DelegatetGet model c.ChannelIdentifier addr))
            removedDelegates := model.removedDelegates
            accounts :=
              dbSaveAccount model.accounts
                (savedAccount P model c addr (DelegatetGet model c.ChannelIdentifier addr))
            monitors :=
              model.monitors
                ++ addedMonitors P c addr (DelegatetGet model c.ChannelIdentifier addr) }) := by
  have hcond : (!P.DebugMode
      && decide ((DelegatetGet model c.ChannelIdentifier addr).Status = DelegateStatusInit)
      && decide ((DelegatetGet model c.ChannelIdentifier addr).Content.UpdateTransfer.Nonce
          > c.UpdateTransfer.Nonce)) = false := by
    unfold staleNonce at h
    cases hD : P.DebugMode
    · simp only [hD, true_and] at h
      simp
      intro h1
      by_contra h2
      exact h ⟨h1, by omega⟩
    · simp
  unfold DelegateNewOrUpdateDelegate
  simp only [hcond]
  have hA := AccountGetAccount_Address model addr
  generalize DelegatetGet model c.ChannelIdentifier addr = d0
  unfold savedDelegate savedAccount addedMonitors DelegateMonitorAdd
  rw [mergeAnnounceDisposed_eq, mergePunish_eq]
  by_cases hR : d0.Status = DelegateStatusRunning <;>
    by_cases hS : d0.SettleBlockNumber = 0 ∧ c.settleBlockNumber > 0 <;>
    simp [hR, hS, hA]

/-- After an accepted submission the delegate read back under the key of the
submission is `savedDelegate`. -/
theorem get_after_accept (P : Params) (now : Time) (model : ModelDB) (c : ChannelFor3rd)
    (addr : Address) (h : ¬ staleNonce P (DelegatetGet model c.ChannelIdentifier addr) c) :
    DelegatetGet (DelegateNewOrUpdateDelegate P now model c addr).2 c.ChannelIdentifier addr
      = savedDelegate now c addr (DelegatetGet model c.ChannelIdentifier addr) := by
  rw [submit_accept P now model c addr h]
  generalize DelegatetGet model c.ChannelIdentifier addr = d0
  have hk : (savedDelegate now c addr d0).Key = delegateKey c.ChannelIdentifier addr := rfl
  have := dbOneDelegate_save model.delegates (savedDelegate now c addr d0)
  rw [hk] at this
  simp only [DelegatetGet, DelegatetGetByKey, this]

/-- After an accepted submission the credit requirement of the delegator has
grown by the cost of the candidate less the cost of the stored content taken
after the two merges. -/
theorem needSmt_after_accept (P : Params) (now : Time) (model : ModelDB) (c : ChannelFor3rd)
    (addr : Address) (h : ¬ staleNonce P (DelegatetGet model c.ChannelIdentifier addr) c) :
    needSmtOf (DelegateNewOrUpdateDelegate P now model c addr).2 addr
      = needSmtOf model addr + CalcNeedSmtForThisChannel P c
        - CalcNeedSmtForThisChannel P
            (mergeAnnounceDisposed c
              (mergePunish c (DelegatetGet model c.ChannelIdentifier addr))).Content := by
  rw [submit_accept P now model c addr h]
  generalize DelegatetGet model c.ChannelIdentifier addr = d0
  have := find_dbSaveAccount model.accounts (savedAccount P model c addr d0)
  have ha : (savedAccount P model c addr d0).Address = addr := rfl
  rw [ha] at this
  simp only [needSmtOf, AccountGetAccount, this]
  rfl

/-- A value of the `int64` range is not changed by the wrap-around. -/
theorem wrapInt64_of_range (x : Int) (h1 : -(2 ^ 63) ≤ x) (h2 : x < 2 ^ 63) :
    wrapInt64 x = x := by
  unfold wrapInt64
  omega

/-- Once the stored settle block number of a key is not zero, a submission for
the key registers no trigger and keeps the number. -/
theorem submit_keeps_settle (P : Params) (now : Time) (model : ModelDB) (c : ChannelFor3rd)
    (addr : Address) (s : Int) (hs0 : s ≠ 0)
    (hget : (DelegatetGet model c.ChannelIdentifier addr).SettleBlockNumber = s) :
    (DelegateNewOrUpdateDelegate P now model c addr).2.monitors = model.monitors ∧
    (DelegatetGet (DelegateNewOrUpdateDelegate P now model c addr).2
        c.ChannelIdentifier addr).SettleBlockNumber = s := by
  by_cases hst : staleNonce P (DelegatetGet model c.ChannelIdentifier addr) c
  · rw [(submit_reject P now model c addr hst).2]
    exact ⟨rfl, hget⟩
  · have hne : ¬ ((DelegatetGet model c.ChannelIdentifier addr).SettleBlockNumber = 0
        ∧ c.settleBlockNumber > 0) := by
      intro h
      exact hs0 (hget ▸ h.1)
    constructor
    · rw [submit_accept P now model c addr hst]
      simp [addedMonitors, hne]
    · rw [get_after_accept P now model c addr hst]
      unfold savedDelegate
      simp only [if_neg hne]
      exact hget

/-- The same over a run of submissions for the key. -/
theorem submitAll_keeps_settle (P : Params) (addr : Address) (cid : Hash) (s : Int)
    (hs0 : s ≠ 0) (subs : List (Time × ChannelFor3rd))
    (hsubs : ∀ x ∈ subs, x.2.ChannelIdentifier = cid) (model : ModelDB)
    (hget : (DelegatetGet model cid addr).SettleBlockNumber = s) :
    (submitAll P addr model subs).monitors = model.monitors ∧
    (DelegatetGet (submitAll P addr model subs) cid addr).SettleBlockNumber = s := by
  induction subs generalizing model with
  | nil => exact ⟨rfl, hget⟩
  | cons x xs ih =>
    have hx : x.2.ChannelIdentifier = cid := hsubs x (List.mem_cons_self x xs)
    have hstep := submit_keeps_settle P x.1 model x.2 addr s hs0 (by rw [hx]; exact hget)
    rw [hx] at hstep
    have hrest := ih (fun y hy => hsubs y (List.mem_cons_of_mem x hy))
      (DelegateNewOrUpdateDelegate P x.1 model x.2 addr).2 hstep.2
    unfold submitAll at hrest ⊢
    rw [List.foldl_cons]
    exact ⟨hrest.1.trans hstep.1, hrest.2⟩

/-- The delegate stored in `exStore` when the nonce is positive. -/
theorem exStore_get (P : Params) (now : Time) (nonce : Int) (hn : 0 < nonce) :
    DelegatetGet (exStore P now nonce) exChannel exAddr
      = savedDelegate now (exCandidate nonce [] []) exAddr Delegate.zero := by
  have hz : DelegatetGet ModelDB.empty (exCandidate nonce [] []).ChannelIdentifier exAddr
      = Delegate.zero := rfl
  have hs : ¬ staleNonce P
      (DelegatetGet ModelDB.empty (exCandidate nonce [] []).ChannelIdentifier exAddr)
      (exCandidate nonce [] []) := by
    rw [hz]
    intro h
    have h3 := h.2.2
    simp only [Delegate.zero, ChannelFor3rd.zero, UpdateTransfer.zero, exCandidate] at h3
    omega
  have hg := get_after_accept P now ModelDB.empty (exCandidate nonce [] []) exAddr hs
  rw [hz] at hg
  exact hg

/-! ## Claims -/

/-- C1 (fails on the code). Evaluation at the failing input: from the empty
store, one accepted submission with nonce 1 and one punish record leaves the
account of the delegator with `NeedSmt = SmtUpdateTransfer`, while the cost of
the content then stored for the key is `SmtUpdateTransfer + SmtPunish`; the two
differ whenever `SmtPunish` is not zero. -/
theorem C1_needSmt_misses_punish_cost (P : Params) (now : Time) :
    (DelegateNewOrUpdateDelegate P now ModelDB.empty
        (exCandidate 1 [] [exPunish 1]) exAddr).1 = none ∧
    needSmtOf (DelegateNewOrUpdateDelegate P now ModelDB.empty
        (exCandidate 1 [] [exPunish 1]) exAddr).2 exAddr = P.SmtUpdateTransfer ∧
    CalcNeedSmtForThisChannel P
        (DelegatetGet (DelegateNewOrUpdateDelegate P now ModelDB.empty
          (exCandidate 1 [] [exPunish 1]) exAddr).2 exChannel exAddr).Content
      = P.SmtUpdateTransfer + P.SmtPunish := by
  have hz : DelegatetGet ModelDB.empty (exCandidate 1 [] [exPunish 1]).ChannelIdentifier exAddr
      = Delegate.zero := rfl
  have hs : ¬ staleNonce P
      (DelegatetGet ModelDB.empty (exCandidate 1 [] [exPunish 1]).ChannelIdentifier exAddr)
      (exCandidate 1 [] [exPunish 1]) := by
    rw [hz]
    intro h
    exact absurd h.2.2 (by decide)
  refine ⟨?_, ?_, ?_⟩
  · rw [submit_accept P now _ _ _ hs]
  · rw [needSmt_after_accept P now _ _ _ hs, hz, mergeAnnounceDisposed_eq, mergePunish_eq]
    simp [needSmtOf, AccountGetAccount, ModelDB.empty, CalcNeedSmtForThisChannel, exCandidate,
      freshPunishes, Delegate.zero, ChannelFor3rd.zero, UpdateTransfer.zero]
  · have hg := get_after_accept P now ModelDB.empty (exCandidate 1 [] [exPunish 1]) exAddr hs
    have hc : (exCandidate 1 [] [exPunish 1]).ChannelIdentifier = exChannel := rfl
    rw [hc] at hg
    rw [hg, hc.symm, hz]
    unfold savedDelegate
    rw [mergeAnnounceDisposed_eq, mergePunish_eq]
    simp [CalcNeedSmtForThisChannel, exCandidate, overwriteContent, DelegateStatusRunning,
      freshPunishes, Delegate.zero, ChannelFor3rd.zero, UpdateTransfer.zero]

/-- C2 (fails on the code). Evaluation at the failing input: the store holds a
delegation with nonce 1 and no punish (cost `SmtUpdateTransfer`); a submission
with nonce 1 and one punish record is accepted and adds nothing to `NeedSmt`,
although the cost of the stored content grows by `SmtPunish`: the amount added
is not the cost stored after less the cost stored before. -/
theorem C2_delta_is_not_new_minus_old (P : Params) (now : Time) :
    (DelegateNewOrUpdateDelegate P now (exStore P now 1)
        (exCandidate 1 [] [exPunish 1]) exAddr).1 = none ∧
    needSmtOf (DelegateNewOrUpdateDelegate P now (exStore P now 1)
        (exCandidate 1 [] [exPunish 1]) exAddr).2 exAddr
      - needSmtOf (exStore P now 1) exAddr = 0 ∧
    CalcNeedSmtForThisChannel P
        (DelegatetGet (DelegateNewOrUpdateDelegate P now (exStore P now 1)
          (exCandidate 1 [] [exPunish 1]) exAddr).2 exChannel exAddr).Content
      - CalcNeedSmtForThisChannel P (DelegatetGet (exStore P now 1) exChannel exAddr).Content
      = P.SmtPunish := by
  have hc : (exCandidate 1 [] [exPunish 1]).ChannelIdentifier = exChannel := rfl
  have hg0 := exStore_get P now 1 (by decide)
  have hs : ¬ staleNonce P
      (DelegatetGet (exStore P now 1) (exCandidate 1 [] [exPunish 1]).ChannelIdentifier exAddr)
      (exCandidate 1 [] [exPunish 1]) := by
    rw [hc, hg0]
    intro h
    have h3 := h.2.2
    simp [savedDelegate, overwriteContent, exCandidate, DelegateStatusRunning,
      Delegate.zero] at h3
  refine ⟨?_, ?_, ?_⟩
  · rw [submit_accept P now _ _ _ hs]
  · rw [needSmt_after_accept P now _ _ _ hs, hc, hg0, mergeAnnounceDisposed_eq, mergePunish_eq]
    simp [CalcNeedSmtForThisChannel, exCandidate, savedDelegate, overwriteContent,
      DelegateStatusRunning, freshPunishes, Delegate.zero, ChannelFor3rd.zero,
      UpdateTransfer.zero, mergeAnnounceDisposed_eq, mergePunish_eq]
  · have hg := get_after_accept P now (exStore P now 1) (exCandidate 1 [] [exPunish 1]) exAddr hs
    rw [hc] at hg
    rw [hg, hg0]
    simp [CalcNeedSmtForThisChannel, exCandidate, savedDelegate, overwriteContent,
      DelegateStatusRunning, freshPunishes, Delegate.zero, ChannelFor3rd.zero,
      UpdateTransfer.zero, mergeAnnounceDisposed_eq, mergePunish_eq]

/-- C3. `DelegateNewOrUpdateDelegate` returns an error exactly when debug mode
is off, the stored delegate of the key is in status `Init` and its stored nonce
is strictly greater than the nonce of the candidate. In particular, in `Init`
with stored nonce `N`, a candidate with nonce `N + 1` or `N` is accepted, and
every candidate is accepted when the status is not `Init` or debug mode is on. -/
theorem C3_error_iff_stale_nonce (P : Params) (now : Time) (model : ModelDB)
    (c : ChannelFor3rd) (addr : Address) :
    ((DelegateNewOrUpdateDelegate P now model c addr).1 ≠ none ↔
      (P.DebugMode = false ∧
        (DelegatetGet model c.ChannelIdentifier addr).Status = DelegateStatusInit ∧
        (DelegatetGet model c.ChannelIdentifier addr).Content.UpdateTransfer.Nonce
          > c.UpdateTransfer.Nonce)) ∧
    ((DelegatetGet model c.ChannelIdentifier addr).Status = DelegateStatusInit →
      (c.UpdateTransfer.Nonce
          = (DelegatetGet model c.ChannelIdentifier addr).Content.UpdateTransfer.Nonce + 1 ∨
        c.UpdateTransfer.Nonce
          = (DelegatetGet model c.ChannelIdentifier addr).Content.UpdateTransfer.Nonce) →
      (DelegateNewOrUpdateDelegate P now model c addr).1 = none) ∧
    (((DelegatetGet model c.ChannelIdentifier addr).Status ≠ DelegateStatusInit ∨
        P.DebugMode = true) →
      (DelegateNewOrUpdateDelegate P now model c addr).1 = none) := by
  have key : (DelegateNewOrUpdateDelegate P now model c addr).1 ≠ none ↔
      staleNonce P (DelegatetGet model c.ChannelIdentifier addr) c := by
    constructor
    · intro h
      by_contra hs
      rw [submit_accept P now model c addr hs] at h
      exact h rfl
    · intro hs
      exact (submit_reject P now model c addr hs).1
  have acc : ¬ staleNonce P (DelegatetGet model c.ChannelIdentifier addr) c →
      (DelegateNewOrUpdateDelegate P now model c addr).1 = none := by
    intro hs
    rw [submit_accept P now model c addr hs]
  refine ⟨key, ?_, ?_⟩
  · intro _ hn
    apply acc
    intro hs
    have h3 := hs.2.2
    omega
  · intro h
    apply acc
    intro hs
    rcases h with h | h
    · exact h hs.2.1
    · rw [hs.1] at h
      exact Bool.false_ne_true h

/-- C3, at concrete inputs: with nonce 2 stored in `Init` and debug mode off, a
candidate with nonce 1 is rejected and candidates with nonce 2 and 3 are
accepted. -/
theorem C3_error_iff_stale_nonce_witness :
    (DelegateNewOrUpdateDelegate exParams 0 (exStore exParams 0 2)
        (exCandidate 1 [] []) exAddr).1 ≠ none ∧
    (DelegateNewOrUpdateDelegate exParams 0 (exStore exParams 0 2)
        (exCandidate 2 [] []) exAddr).1 = none ∧
    (DelegateNewOrUpdateDelegate exParams 0 (exStore exParams 0 2)
        (exCandidate 3 [] []) exAddr).1 = none :=
  ⟨(C3_error_iff_stale_nonce exParams 0 (exStore exParams 0 2) (exCandidate 1 [] []) exAddr).1.mpr
      ⟨rfl, by decide, by decide⟩,
    (C3_error_iff_stale_nonce exParams 0 (exStore exParams 0 2) (exCandidate 2 [] []) exAddr).2.1
      (by decide) (Or.inr (by decide)),
    (C3_error_iff_stale_nonce exParams 0 (exStore exParams 0 2) (exCandidate 3 [] []) exAddr).2.1
      (by decide) (Or.inl (by decide))⟩

/-- C4. Whenever `DelegateNewOrUpdateDelegate` returns an error, the store after
the call is the store before it: the delegate read back under the key (with its
punish and disposed-lock lists), the credit requirement of the account and the
registered monitor triggers are as before the call. -/
theorem C4_rejected_submission_leaves_store (P : Params) (now : Time) (model : ModelDB)
    (c : ChannelFor3rd) (addr : Address)
    (herr : (DelegateNewOrUpdateDelegate P now model c addr).1 ≠ none) :
    (DelegateNewOrUpdateDelegate P now model c addr).2 = model ∧
    DelegatetGet (DelegateNewOrUpdateDelegate P now model c addr).2 c.ChannelIdentifier addr
      = DelegatetGet model c.ChannelIdentifier addr ∧
    needSmtOf (DelegateNewOrUpdateDelegate P now model c addr).2 addr = needSmtOf model addr ∧
    (DelegateNewOrUpdateDelegate P now model c addr).2.monitors = model.monitors := by
  have hs : staleNonce P (DelegatetGet model c.ChannelIdentifier addr) c := by
    by_contra hs
    rw [submit_accept P now model c addr hs] at herr
    exact herr rfl
  have h2 := (submit_reject P now model c addr hs).2
  rw [h2]
  exact ⟨rfl, rfl, rfl, rfl⟩

/-- C4, at a concrete input: nonce 2 is stored in `Init`, debug mode is off and
the candidate carries nonce 1 and a punish record; the call returns an error
and the store is unchanged. -/
theorem C4_rejected_submission_leaves_store_witness :
    (DelegateNewOrUpdateDelegate exParams 5 (exStore exParams 0 2)
        (exCandidate 1 [] [exPunish 1]) exAddr).1 ≠ none ∧
    (DelegateNewOrUpdateDelegate exParams 5 (exStore exParams 0 2)
        (exCandidate 1 [] [exPunish 1]) exAddr).2 = exStore exParams 0 2 :=
  ⟨by decide,
    (C4_rejected_submission_leaves_store exParams 5 (exStore exParams 0 2)
      (exCandidate 1 [] [exPunish 1]) exAddr (by decide)).1⟩

/-- C5. When the stored delegate of the key is in status `Running`, a submission
is accepted and the delegate read back afterwards has the `UpdateTransfer` and
the `Unlocks` that were stored before the call, while its punish list is the
stored one followed by the punishes of the candidate whose `LockHash` was not
stored, and its disposed-lock list is the stored one followed by the
announcements of the candidate whose `LockSecretHash` was not stored. -/
theorem C5_running_keeps_balance_proof_and_unlocks (P : Params) (now : Time) (model : ModelDB)
    (c : ChannelFor3rd) (addr : Address)
    (hrun : (DelegatetGet model c.ChannelIdentifier addr).Status = DelegateStatusRunning) :
    (DelegateNewOrUpdateDelegate P now model c addr).1 = none ∧
    (DelegatetGet (DelegateNewOrUpdateDelegate P now model c addr).2
        c.ChannelIdentifier addr).Content.UpdateTransfer
      = (DelegatetGet model c.ChannelIdentifier addr).Content.UpdateTransfer ∧
    (DelegatetGet (DelegateNewOrUpdateDelegate P now model c addr).2
        c.ChannelIdentifier addr).Content.Unlocks
      = (DelegatetGet model c.ChannelIdentifier addr).Content.Unlocks ∧
    (DelegatetGet (DelegateNewOrUpdateDelegate P now model c addr).2
        c.ChannelIdentifier addr).Content.Punishes
      = (DelegatetGet model c.ChannelIdentifier addr).Content.Punishes
        ++ c.Punishes.filter (fun p => decide (p.LockHash ∉
            (DelegatetGet model c.ChannelIdentifier addr).Content.Punishes.map
              (fun q => q.LockHash))) ∧
    (DelegatetGet (DelegateNewOrUpdateDelegate P now model c addr).2
        c.ChannelIdentifier addr).Content.AnnouceDisposed
      = (DelegatetGet model c.ChannelIdentifier addr).Content.AnnouceDisposed
        ++ c.AnnouceDisposed.filter (fun p => decide (p.LockSecretHash ∉
            (DelegatetGet model c.ChannelIdentifier addr).Content.AnnouceDisposed.map
              (fun q => q.LockSecretHash))) := by
  have hs : ¬ staleNonce P (DelegatetGet model c.ChannelIdentifier addr) c := by
    intro h
    have h2 := h.2.1
    rw [hrun] at h2
    exact absurd h2 (by decide)
  have hg := get_after_accept P now model c addr hs
  rw [hg]
  refine ⟨by rw [submit_accept P now model c addr hs], ?_, ?_, ?_, ?_⟩ <;>
    simp [savedDelegate, hrun, mergeAnnounceDisposed_eq, mergePunish_eq, freshPunishes,
      freshDisposed]

/-- C5, at a concrete input: the stored delegate (nonce 1, no unlock) has been
marked running; a candidate with nonce 5, one unlock and one punish leaves the
stored balance proof and unlocks as they were. -/
theorem C5_running_keeps_balance_proof_and_unlocks_witness :
    (DelegatetGet (exRunningStore exParams 0 1)
        (exCandidate 5 [exUnlock] [exPunish 1]).ChannelIdentifier exAddr).Status
      = DelegateStatusRunning ∧
    (DelegatetGet (DelegateNewOrUpdateDelegate exParams 3 (exRunningStore exParams 0 1)
        (exCandidate 5 [exUnlock] [exPunish 1]) exAddr).2
        (exCandidate 5 [exUnlock] [exPunish 1]).ChannelIdentifier exAddr).Content.Unlocks
      = (DelegatetGet (exRunningStore exParams 0 1)
          (exCandidate 5 [exUnlock] [exPunish 1]).ChannelIdentifier exAddr).Content.Unlocks :=
  ⟨by decide,
    (C5_running_keeps_balance_proof_and_unlocks exParams 3 (exRunningStore exParams 0 1)
      (exCandidate 5 [exUnlock] [exPunish 1]) exAddr (by decide)).2.2.1⟩

/-- C6. For a key whose stored `SettleBlockNumber` is 0, an accepted submission
whose settle block number `s` is positive stores `SettleBlockNumber = s` and
registers exactly two monitor triggers for the key of the delegate, the first at
`s` and the second at `s - RevealTimeout`; after it, every run of submissions for
the same key leaves the registered triggers and `SettleBlockNumber = s` as they
are. The numbers are `int64` values: `s` is below `2 ^ 63` and the reveal
timeout is a non-negative number below `2 ^ 63`, so the subtraction does not
wrap. -/
theorem C6_first_settle_registers_two_triggers (P : Params) (now : Time) (model : ModelDB)
    (c : ChannelFor3rd) (addr : Address)
    (h0 : (DelegatetGet model c.ChannelIdentifier addr).SettleBlockNumber = 0)
    (hpos : 0 < c.settleBlockNumber) (hs64 : c.settleBlockNumber < 2 ^ 63)
    (hrt : 0 ≤ P.RevealTimeout) (hrt64 : P.RevealTimeout < 2 ^ 63)
    (hacc : (DelegateNewOrUpdateDelegate P now model c addr).1 = none) :
    (DelegatetGet (DelegateNewOrUpdateDelegate P now model c addr).2
        c.ChannelIdentifier addr).SettleBlockNumber = c.settleBlockNumber ∧
    (DelegateNewOrUpdateDelegate P now model c addr).2.monitors
      = model.monitors
        ++ [(c.settleBlockNumber, delegateKey c.ChannelIdentifier addr),
            (c.settleBlockNumber - P.RevealTimeout, delegateKey c.ChannelIdentifier addr)] ∧
    ∀ subs : List (Time × ChannelFor3rd),
      (∀ x ∈ subs, x.2.ChannelIdentifier = c.ChannelIdentifier) →
      (submitAll P addr (DelegateNewOrUpdateDelegate P now model c addr).2 subs).monitors
          = (DelegateNewOrUpdateDelegate P now model c addr).2.monitors ∧
        (DelegatetGet (submitAll P addr (DelegateNewOrUpdateDelegate P now model c addr).2 subs)
          c.ChannelIdentifier addr).SettleBlockNumber = c.settleBlockNumber := by
  have hst : ¬ staleNonce P (DelegatetGet model c.ChannelIdentifier addr) c := by
    intro hst
    exact (submit_reject P now model c addr hst).1 hacc
  have hcond : (DelegatetGet model c.ChannelIdentifier addr).SettleBlockNumber = 0
      ∧ c.settleBlockNumber > 0 := ⟨h0, hpos⟩
  have hsettle : (DelegatetGet (DelegateNewOrUpdateDelegate P now model c addr).2
      c.ChannelIdentifier addr).SettleBlockNumber = c.settleBlockNumber := by
    rw [get_after_accept P now model c addr hst]
    simp [savedDelegate, hcond]
  refine ⟨hsettle, ?_, ?_⟩
  · rw [submit_accept P now model c addr hst]
    have hw : wrapInt64 (c.settleBlockNumber - P.RevealTimeout)
        = c.settleBlockNumber - P.RevealTimeout :=
      wrapInt64_of_range _ (by omega) (by omega)
    simp [addedMonitors, hcond, hw]
  · intro subs hsubs
    exact submitAll_keeps_settle P addr c.ChannelIdentifier c.settleBlockNumber (by omega)
      subs hsubs _ hsettle

/-- C6, at a concrete input: from the empty store, a candidate with settle block
number 50 and reveal timeout 10 registers the triggers at 50 and 40. -/
theorem C6_first_settle_registers_two_triggers_witness :
    (DelegateNewOrUpdateDelegate exParams 0 ModelDB.empty
        ((exCandidate 1 [] []).SetSettleBlockNumber 50) exAddr).2.monitors
      = [(50, delegateKey exChannel exAddr), (40, delegateKey exChannel exAddr)] :=
  (C6_first_settle_registers_two_triggers exParams 0 ModelDB.empty
    ((exCandidate 1 [] []).SetSettleBlockNumber 50) exAddr (by decide) (by decide) (by decide)
    (by decide) (by decide) (by decide)).2.1

/-- C7. The cost of an action set is `SmtUpdateTransfer` when the nonce of its
balance proof is positive (the test of the source for a balance proof being
present), plus `SmtUnlock` for each unlock, plus `SmtPunish` once when there is
at least one punish record. In particular an action set with a balance proof,
3 unlocks and 5 punish records costs `SmtUpdateTransfer + 3 * SmtUnlock +
SmtPunish`. -/
theorem C7_cost_formula (P : Params) (c : ChannelFor3rd) :
    CalcNeedSmtForThisChannel P c
      = (if c.UpdateTransfer.Nonce > 0 then P.SmtUpdateTransfer else 0)
        + (c.Unlocks.length : Int) * P.SmtUnlock
        + (if c.Punishes ≠ [] then P.SmtPunish else 0) ∧
    (c.UpdateTransfer.Nonce > 0 → c.Unlocks.length = 3 → c.Punishes.length = 5 →
      CalcNeedSmtForThisChannel P c
        = P.SmtUpdateTransfer + 3 * P.SmtUnlock + P.SmtPunish) := by
  have hformula : CalcNeedSmtForThisChannel P c
      = (if c.UpdateTransfer.Nonce > 0 then P.SmtUpdateTransfer else 0)
        + (c.Unlocks.length : Int) * P.SmtUnlock
        + (if c.Punishes ≠ [] then P.SmtPunish else 0) := by
    unfold CalcNeedSmtForThisChannel
    simp only [foldl_add_const]
    have hlen : c.Punishes.length > 0 ↔ c.Punishes ≠ [] := List.length_pos
    by_cases hn : c.UpdateTransfer.Nonce > 0 <;> by_cases hp : c.Punishes ≠ [] <;>
      simp [hn, hp, hlen]
  refine ⟨hformula, ?_⟩
  intro hn hu hp
  have hne : c.Punishes ≠ [] := by
    intro h
    rw [h] at hp
    exact absurd hp (by decide)
  rw [hformula, hu]
  simp [hn, hne]

/-- C7, at a concrete input: nonce 1, 3 unlocks and 5 punish records under unit
costs 100, 10 and 1 cost 131. -/
theorem C7_cost_formula_witness :
    CalcNeedSmtForThisChannel exParams
        (exCandidate 1 [exUnlock, exUnlock, exUnlock]
          [exPunish 1, exPunish 2, exPunish 3, exPunish 4, exPunish 5])
      = 100 + 3 * 10 + 1 :=
  (C7_cost_formula exParams
    (exCandidate 1 [exUnlock, exUnlock, exUnlock]
      [exPunish 1, exPunish 2, exPunish 3, exPunish 4, exPunish 5])).2
    (by decide) rfl rfl

/-- C8. Merging the punishes (the disposed locks) of one candidate twice gives
the delegate, and so the stored punish (disposed-lock) list, that merging them
once gives. -/
theorem C8_merge_idempotent (c : ChannelFor3rd) (d : Delegate) :
    (mergePunish c (mergePunish c d)).Content.Punishes = (mergePunish c d).Content.Punishes ∧
    (mergeAnnounceDisposed c (mergeAnnounceDisposed c d)).Content.AnnouceDisposed
      = (mergeAnnounceDisposed c d).Content.AnnouceDisposed ∧
    mergePunish c (mergePunish c d) = mergePunish c d ∧
    mergeAnnounceDisposed c (mergeAnnounceDisposed c d) = mergeAnnounceDisposed c d := by
  have h1 : mergePunish c (mergePunish c d) = mergePunish c d := by
    rw [mergePunish_eq c (mergePunish c d), freshPunishes_after_merge]
    simp
  have h2 : mergeAnnounceDisposed c (mergeAnnounceDisposed c d) = mergeAnnounceDisposed c d := by
    rw [mergeAnnounceDisposed_eq c (mergeAnnounceDisposed c d), freshDisposed_after_merge]
    simp
  exact ⟨by rw [h1], by rw [h2], h1, h2⟩

/-- C9 (fails on the code). Evaluation at the failing input: the stored delegate
has no punish and no disposed lock (pairwise distinct hashes, trivially) and the
candidate carries the same punish record twice and the same announcement twice;
after `mergePunish` and `mergeAnnounceDisposed` the stored lists hold both
copies, so the stored hashes are not pairwise distinct. -/
theorem C9_merge_duplicates_hash_of_candidate :
    (Delegate.zero.Content.Punishes.map (fun q => q.LockHash)).Nodup ∧
    (mergePunish (exCandidate 1 [] [exPunish 1, exPunish 1]) Delegate.zero).Content.Punishes
      = [exPunish 1, exPunish 1] ∧
    ¬ ((mergePunish (exCandidate 1 [] [exPunish 1, exPunish 1])
        Delegate.zero).Content.Punishes.map (fun q => q.LockHash)).Nodup ∧
    (Delegate.zero.Content.AnnouceDisposed.map (fun q => q.LockSecretHash)).Nodup ∧
    ¬ ((mergeAnnounceDisposed
        { ChannelFor3rd.zero with
            AnnouceDisposed := [⟨Hash.ofByte 1⟩, ⟨Hash.ofByte 1⟩] }
        Delegate.zero).Content.AnnouceDisposed.map (fun q => q.LockSecretHash)).Nodup := by
  refine ⟨by decide, by decide, by decide, by decide, by decide⟩

/-- C10. `mergePunish` only appends: the stored punish list after the merge is
the list before it followed by a list `t`; every record of `t` is a punish of
the candidate whose `LockHash` was not the `LockHash` of a stored punish; and
every `LockHash` of the candidate is the `LockHash` of a stored punish after
the merge. The same holds of `mergeAnnounceDisposed` and `LockSecretHash`. -/
theorem C10_merge_only_appends (c : ChannelFor3rd) (d : Delegate) :
    (∃ t : List Punish,
      (mergePunish c d).Content.Punishes = d.Content.Punishes ++ t ∧
      (∀ p ∈ t, p ∈ c.Punishes ∧ p.LockHash ∉ d.Content.Punishes.map (fun q => q.LockHash)) ∧
      (∀ p ∈ c.Punishes,
        p.LockHash ∈ (mergePunish c d).Content.Punishes.map (fun q => q.LockHash))) ∧
    (∃ t : List AnnouceDisposed,
      (mergeAnnounceDisposed c d).Content.AnnouceDisposed = d.Content.AnnouceDisposed ++ t ∧
      (∀ p ∈ t, p ∈ c.AnnouceDisposed ∧
        p.LockSecretHash ∉ d.Content.AnnouceDisposed.map (fun q => q.LockSecretHash)) ∧
      (∀ p ∈ c.AnnouceDisposed,
        p.LockSecretHash ∈
          (mergeAnnounceDisposed c d).Content.AnnouceDisposed.map
            (fun q => q.LockSecretHash))) := by
  constructor
  · refine ⟨freshPunishes c d, by rw [mergePunish_eq], ?_, ?_⟩
    · intro p hp
      unfold freshPunishes at hp
      rw [List.mem_filter] at hp
      exact ⟨hp.1, by simpa using hp.2⟩
    · intro p hp
      rw [mergePunish_eq]
      simp only [List.map_append, List.mem_append]
      by_cases hm : p.LockHash ∈ d.Content.Punishes.map (fun q => q.LockHash)
      · exact Or.inl hm
      · right
        apply List.mem_map_of_mem (fun q : Punish => q.LockHash)
        unfold freshPunishes
        rw [List.mem_filter]
        exact ⟨hp, by simpa using hm⟩
  · refine ⟨freshDisposed c d, by rw [mergeAnnounceDisposed_eq], ?_, ?_⟩
    · intro p hp
      unfold freshDisposed at hp
      rw [List.mem_filter] at hp
      exact ⟨hp.1, by simpa using hp.2⟩
    · intro p hp
      rw [mergeAnnounceDisposed_eq]
      simp only [List.map_append, List.mem_append]
      by_cases hm : p.LockSecretHash ∈ d.Content.AnnouceDisposed.map (fun q => q.LockSecretHash)
      · exact Or.inl hm
      · right
        apply List.mem_map_of_mem (fun q : AnnouceDisposed => q.LockSecretHash)
        unfold freshDisposed
        rw [List.mem_filter]
        exact ⟨hp, by simpa using hm⟩

/-- C15. Disposed-lock announcements carry no cost: the cost of an action set
does not change when its `AnnouceDisposed` list is replaced by any other list,
and the cost of the stored content is the same before and after
`mergeAnnounceDisposed`. -/
theorem C15_disposed_locks_cost_nothing (P : Params) (c : ChannelFor3rd) (d : Delegate)
    (l : List AnnouceDisposed) :
    CalcNeedSmtForThisChannel P { c with AnnouceDisposed := l } = CalcNeedSmtForThisChannel P c ∧
    CalcNeedSmtForThisChannel P (mergeAnnounceDisposed c d).Content
      = CalcNeedSmtForThisChannel P d.Content := by
  constructor
  · rfl
  · rw [mergeAnnounceDisposed_eq]
    rfl

/-- C16. The grand total is the sum of the three sub-totals, and when the unit
costs are non-negative each sub-total and the grand total are non-negative. -/
theorem C16_total_is_sum_of_subtotals (P : Params) (c : ChannelFor3rd) :
    CalcNeedSmtForThisChannel P c
      = CalceNeedSmtForUpdateBalanceProof P c + CalceNeedSmtForUnlock P c
        + CalceNeedSmtForPunish P c ∧
    (0 ≤ P.SmtUpdateTransfer → 0 ≤ P.SmtUnlock → 0 ≤ P.SmtPunish →
      0 ≤ CalceNeedSmtForUpdateBalanceProof P c ∧ 0 ≤ CalceNeedSmtForUnlock P c ∧
        0 ≤ CalceNeedSmtForPunish P c ∧ 0 ≤ CalcNeedSmtForThisChannel P c) := by
  have hsum : CalcNeedSmtForThisChannel P c
      = CalceNeedSmtForUpdateBalanceProof P c + CalceNeedSmtForUnlock P c
        + CalceNeedSmtForPunish P c := by
    unfold CalcNeedSmtForThisChannel CalceNeedSmtForUpdateBalanceProof CalceNeedSmtForUnlock
      CalceNeedSmtForPunish
    simp only [foldl_add_const]
    by_cases hn : c.UpdateTransfer.Nonce > 0 <;> by_cases hp : c.Punishes.length > 0 <;>
      simp [hn, hp]
  refine ⟨hsum, ?_⟩
  intro hu hl hp
  have h1 : 0 ≤ CalceNeedSmtForUpdateBalanceProof P c := by
    unfold CalceNeedSmtForUpdateBalanceProof
    by_cases hn : c.UpdateTransfer.Nonce > 0 <;> simp [hn, hu]
  have h2 : 0 ≤ CalceNeedSmtForUnlock P c := by
    unfold CalceNeedSmtForUnlock
    simp only [foldl_add_const]
    positivity
  have h3 : 0 ≤ CalceNeedSmtForPunish P c := by
    unfold CalceNeedSmtForPunish
    by_cases hn : c.Punishes.length > 0 <;> simp [hn, hp]
  exact ⟨h1, h2, h3, by rw [hsum]; omega⟩

/-- C16, at a concrete input: under unit costs 100, 10 and 1 the sub-totals of
an action set with nonce 1, two unlocks and one punish are non-negative. -/
theorem C16_total_is_sum_of_subtotals_witness :
    0 ≤ CalceNeedSmtForUpdateBalanceProof exParams
        (exCandidate 1 [exUnlock, exUnlock] [exPunish 1]) ∧
    0 ≤ CalceNeedSmtForUnlock exParams (exCandidate 1 [exUnlock, exUnlock] [exPunish 1]) ∧
    0 ≤ CalceNeedSmtForPunish exParams (exCandidate 1 [exUnlock, exUnlock] [exPunish 1]) ∧
    0 ≤ CalcNeedSmtForThisChannel exParams (exCandidate 1 [exUnlock, exUnlock] [exPunish 1]) :=
  (C16_total_is_sum_of_subtotals exParams
    (exCandidate 1 [exUnlock, exUnlock] [exPunish 1])).2 (by decide) (by decide) (by decide)

/-- C18. The key of a delegate is the 32 bytes of the channel identifier
followed by the 20 bytes of the delegator address: it has 52 bytes, and two
pairs with the same key are the same pair. -/
theorem C18_delegateKey_length_injective (cAddr cAddr2 : Hash) (addr addr2 : Address) :
    delegateKey cAddr addr = cAddr.val ++ addr.val ∧
    (delegateKey cAddr addr).length = 52 ∧
    (delegateKey cAddr addr = delegateKey cAddr2 addr2 → cAddr = cAddr2 ∧ addr = addr2) := by
  have hk : ∀ (x : Hash) (y : Address), delegateKey x y = x.val ++ y.val := by
    intro x y
    simp [delegateKey]
  refine ⟨hk cAddr addr, ?_, ?_⟩
  · rw [hk, List.length_append, cAddr.property, addr.property]
  · intro h
    rw [hk, hk] at h
    have hlen : cAddr.val.length = cAddr2.val.length := by
      rw [cAddr.property, cAddr2.property]
    have := List.append_inj h hlen
    exact ⟨Subtype.ext this.1, Subtype.ext this.2⟩

/-- C18, at a concrete input: the keys of two delegators on one channel are
equal only if the delegators are the same, and here they are not. -/
theorem C18_delegateKey_length_injective_witness :
    (delegateKey exChannel exAddr).length = 52 ∧
    delegateKey exChannel exAddr ≠ delegateKey exChannel (Address.ofByte 8) :=
  ⟨(C18_delegateKey_length_injective exChannel exChannel exAddr (Address.ofByte 8)).2.1,
    fun h => absurd
      ((C18_delegateKey_length_injective exChannel exChannel exAddr (Address.ofByte 8)).2.2 h).2
      (by decide)⟩

/-- C20. `DelegateNewOrUpdateDelegate` does not change the status of the delegate
of the key (a key with no delegate reads as the zero value, status `Init`):
the status read back after the call is the status read before it, whether the
call returns an error or not; and when that status is not `Running` and the
call returns no error, the `UpdateTransfer` and the `Unlocks` read back are the
ones of the candidate. -/
theorem C20_submission_keeps_status (P : Params) (now : Time) (model : ModelDB)
    (c : ChannelFor3rd) (addr : Address) :
    (DelegatetGet (DelegateNewOrUpdateDelegate P now model c addr).2
        c.ChannelIdentifier addr).Status
      = (DelegatetGet model c.ChannelIdentifier addr).Status ∧
    ((DelegatetGet model c.ChannelIdentifier addr).Status ≠ DelegateStatusRunning →
      (DelegateNewOrUpdateDelegate P now model c addr).1 = none →
      (DelegatetGet (DelegateNewOrUpdateDelegate P now model c addr).2
          c.ChannelIdentifier addr).Content.UpdateTransfer = c.UpdateTransfer ∧
      (DelegatetGet (DelegateNewOrUpdateDelegate P now model c addr).2
          c.ChannelIdentifier addr).Content.Unlocks = c.Unlocks) := by
  by_cases hst : staleNonce P (DelegatetGet model c.ChannelIdentifier addr) c
  · rw [(submit_reject P now model c addr hst).2]
    exact ⟨rfl, fun _ hacc => absurd hacc (submit_reject P now model c addr hst).1⟩
  · rw [get_after_accept P now model c addr hst]
    refine ⟨rfl, ?_⟩
    intro hrun _
    simp [savedDelegate, hrun, overwriteContent]

/-- C20, at a concrete input: nonce 1 is stored in `Init`; an accepted candidate
with nonce 2 and one unlock replaces the stored balance proof and unlocks. -/
theorem C20_submission_keeps_status_witness :
    (DelegatetGet (DelegateNewOrUpdateDelegate exParams 1 (exStore exParams 0 1)
        (exCandidate 2 [exUnlock] []) exAddr).2
        (exCandidate 2 [exUnlock] []).ChannelIdentifier exAddr).Content.Unlocks = [exUnlock] :=
  ((C20_submission_keeps_status exParams 1 (exStore exParams 0 1)
    (exCandidate 2 [exUnlock] []) exAddr).2 (by decide) (by decide)).2

/-! ### Order of two merges -/

/-- The punish list after `mergePunish` is `appendFresh` of the stored list and
the punishes of the candidate. -/
theorem mergePunish_Punishes (c : ChannelFor3rd) (d : Delegate) :
    (mergePunish c d).Content.Punishes
      = appendFresh (fun q : Punish => q.LockHash) d.Content.Punishes c.Punishes := by
  rw [mergePunish_eq]
  rfl

/-- The disposed-lock list after `mergeAnnounceDisposed` is `appendFresh` of the
stored list and the announcements of the candidate. -/
theorem mergeAnnounceDisposed_AnnouceDisposed (c : ChannelFor3rd) (d : Delegate) :
    (mergeAnnounceDisposed c d).Content.AnnouceDisposed
      = appendFresh (fun q : AnnouceDisposed => q.LockSecretHash) d.Content.AnnouceDisposed
          c.AnnouceDisposed := by
  rw [mergeAnnounceDisposed_eq]
  rfl

/-- The records of `appendFresh`. -/
theorem mem_appendFresh {α : Type} (key : α → Hash) (s c : List α) (x : α) :
    x ∈ appendFresh key s c ↔ x ∈ s ∨ (x ∈ c ∧ key x ∉ s.map key) := by
  simp [appendFresh, List.mem_append, List.mem_filter]

/-- The keys of `appendFresh`: the stored keys and the keys of the candidate. -/
theorem mem_keys_appendFresh {α : Type} (key : α → Hash) (s c : List α) (h : Hash) :
    h ∈ (appendFresh key s c).map key ↔ h ∈ s.map key ∨ h ∈ c.map key := by
  constructor
  · intro hm
    obtain ⟨x, hx, hk⟩ := List.mem_map.mp hm
    rcases (mem_appendFresh key s c x).mp hx with h1 | h1
    · exact Or.inl (List.mem_map.mpr ⟨x, h1, hk⟩)
    · exact Or.inr (List.mem_map.mpr ⟨x, h1.1, hk⟩)
  · intro hm
    by_cases hs : h ∈ s.map key
    · obtain ⟨x, hx, hk⟩ := List.mem_map.mp hs
      exact List.mem_map.mpr ⟨x, (mem_appendFresh key s c x).mpr (Or.inl hx), hk⟩
    · rcases hm with h1 | h1
      · exact absurd h1 hs
      · obtain ⟨x, hx, hk⟩ := List.mem_map.mp h1
        refine List.mem_map.mpr ⟨x, (mem_appendFresh key s c x).mpr (Or.inr ⟨hx, ?_⟩), hk⟩
        rw [hk]
        exact hs

/-- Two merges in either order store the same keys. -/
theorem appendFresh_comm_keys {α : Type} (key : α → Hash) (s a b : List α) (h : Hash) :
    h ∈ (appendFresh key (appendFresh key s a) b).map key ↔
      h ∈ (appendFresh key (appendFresh key s b) a).map key := by
  simp only [mem_keys_appendFresh]
  tauto

/-- Two merges in either order store the same records when a record of the one
candidate and a record of the other with the same key are equal. -/
theorem appendFresh_comm_records {α : Type} (key : α → Hash) (s a b : List α)
    (hagree : ∀ x ∈ a, ∀ y ∈ b, key x = key y → x = y) (x : α) :
    x ∈ appendFresh key (appendFresh key s a) b ↔
      x ∈ appendFresh key (appendFresh key s b) a := by
  simp only [mem_appendFresh, mem_keys_appendFresh]
  constructor
  · rintro ((h1 | ⟨h1, h2⟩) | ⟨h1, h2⟩)
    · exact Or.inl (Or.inl h1)
    · by_cases hb : key x ∈ b.map key
      · obtain ⟨y, hy, hk⟩ := List.mem_map.mp hb
        have hxy : x = y := hagree x h1 y hy hk.symm
        exact Or.inl (Or.inr ⟨hxy ▸ hy, h2⟩)
      · exact Or.inr ⟨h1, fun h => h.elim h2 hb⟩
    · exact Or.inl (Or.inr ⟨h1, fun h => h2 (Or.inl h)⟩)
  · rintro ((h1 | ⟨h1, h2⟩) | ⟨h1, h2⟩)
    · exact Or.inl (Or.inl h1)
    · by_cases ha : key x ∈ a.map key
      · obtain ⟨y, hy, hk⟩ := List.mem_map.mp ha
        have hxy : y = x := hagree y hy x h1 hk
        exact Or.inl (Or.inr ⟨hxy ▸ hy, h2⟩)
      · exact Or.inr ⟨h1, fun h => h.elim h2 ha⟩
    · exact Or.inl (Or.inr ⟨h1, fun h => h2 (Or.inl h)⟩)

/-- C11, the claim as stated fails: with nothing stored, candidate `A` holding a
punish for a lock hash and candidate `B` holding another punish (another
signature) for the same lock hash, merging `A` then `B` stores the record of
`A` and merging `B` then `A` stores the record of `B`; the two stored sets of
records differ. -/
theorem C11_merge_order_changes_stored_record :
    (mergePunish (exCandidate 1 [] [exPunishSigned 1 [2]])
        (mergePunish (exCandidate 1 [] [exPunishSigned 1 [1]]) Delegate.zero)).Content.Punishes
      = [exPunishSigned 1 [1]] ∧
    (mergePunish (exCandidate 1 [] [exPunishSigned 1 [1]])
        (mergePunish (exCandidate 1 [] [exPunishSigned 1 [2]]) Delegate.zero)).Content.Punishes
      = [exPunishSigned 1 [2]] ∧
    ¬ (∀ x : Punish,
        x ∈ (mergePunish (exCandidate 1 [] [exPunishSigned 1 [2]])
            (mergePunish (exCandidate 1 [] [exPunishSigned 1 [1]])
              Delegate.zero)).Content.Punishes ↔
        x ∈ (mergePunish (exCandidate 1 [] [exPunishSigned 1 [1]])
            (mergePunish (exCandidate 1 [] [exPunishSigned 1 [2]])
              Delegate.zero)).Content.Punishes) := by
  have h1 : (mergePunish (exCandidate 1 [] [exPunishSigned 1 [2]])
      (mergePunish (exCandidate 1 [] [exPunishSigned 1 [1]]) Delegate.zero)).Content.Punishes
      = [exPunishSigned 1 [1]] := by decide
  have h2 : (mergePunish (exCandidate 1 [] [exPunishSigned 1 [1]])
      (mergePunish (exCandidate 1 [] [exPunishSigned 1 [2]]) Delegate.zero)).Content.Punishes
      = [exPunishSigned 1 [2]] := by decide
  refine ⟨h1, h2, ?_⟩
  rw [h1, h2]
  intro h
  have := (h (exPunishSigned 1 [1])).mp (List.mem_singleton.mpr rfl)
  exact absurd this (by decide)

/-- C11, as amended. For every stored delegate and every two candidates `A` and
`B`: merging the punishes of `A` and then of `B` stores the same set of
`LockHash` values as merging those of `B` and then of `A`; it stores the same
set of records when every punish of `A` and every punish of `B` with the same
`LockHash` are equal; and for disposed locks the two orders store the same set
of records. -/
theorem C11_merge_commutes_on_hashes (A B : ChannelFor3rd) (d : Delegate) :
    (∀ h : Hash,
      h ∈ (mergePunish B (mergePunish A d)).Content.Punishes.map (fun q => q.LockHash) ↔
      h ∈ (mergePunish A (mergePunish B d)).Content.Punishes.map (fun q => q.LockHash)) ∧
    ((∀ x ∈ A.Punishes, ∀ y ∈ B.Punishes, x.LockHash = y.LockHash → x = y) →
      ∀ x : Punish,
        x ∈ (mergePunish B (mergePunish A d)).Content.Punishes ↔
        x ∈ (mergePunish A (mergePunish B d)).Content.Punishes) ∧
    (∀ x : AnnouceDisposed,
      x ∈ (mergeAnnounceDisposed B (mergeAnnounceDisposed A d)).Content.AnnouceDisposed ↔
      x ∈ (mergeAnnounceDisposed A (mergeAnnounceDisposed B d)).Content.AnnouceDisposed) := by
  refine ⟨?_, ?_, ?_⟩
  · intro h
    simp only [mergePunish_Punishes]
    exact appendFresh_comm_keys _ _ _ _ h
  · intro hagree x
    simp only [mergePunish_Punishes]
    exact appendFresh_comm_records _ _ _ _ hagree x
  · intro x
    simp only [mergeAnnounceDisposed_AnnouceDisposed]
    apply appendFresh_comm_records
    intro a _ b _ hab
    cases a
    cases b
    simp only at hab
    rw [hab]

/-- C11 as amended, at a concrete input: candidates holding punishes for two
different lock hashes store the same records in either order. -/
theorem C11_merge_commutes_on_hashes_witness :
    exPunish 2 ∈ (mergePunish (exCandidate 1 [] [exPunish 2])
        (mergePunish (exCandidate 1 [] [exPunish 1]) Delegate.zero)).Content.Punishes ↔
    exPunish 2 ∈ (mergePunish (exCandidate 1 [] [exPunish 1])
        (mergePunish (exCandidate 1 [] [exPunish 2]) Delegate.zero)).Content.Punishes :=
  (C11_merge_commutes_on_hashes (exCandidate 1 [] [exPunish 1]) (exCandidate 1 [] [exPunish 2])
    Delegate.zero).2.1 (by decide) (exPunish 2)

/-! ### Two submissions in a row -/

/-- A submission that does not meet a stale nonce returns no error. -/
theorem accept_of_not_stale (P : Params) (now : Time) (model : ModelDB) (c : ChannelFor3rd)
    (addr : Address) (hst : ¬ staleNonce P (DelegatetGet model c.ChannelIdentifier addr) c) :
    (DelegateNewOrUpdateDelegate P now model c addr).1 = none := by
  rw [submit_accept P now model c addr hst]

/-- A submission that returns no error did not meet a stale nonce. -/
theorem not_stale_of_accept (P : Params) (now : Time) (model : ModelDB) (c : ChannelFor3rd)
    (addr : Address) (hacc : (DelegateNewOrUpdateDelegate P now model c addr).1 = none) :
    ¬ staleNonce P (DelegatetGet model c.ChannelIdentifier addr) c :=
  fun hst => (submit_reject P now model c addr hst).1 hacc

/-- The cost of an action set is determined by its nonce, its unlocks and its
punishes. -/
theorem CalcNeedSmt_congr (P : Params) (c c2 : ChannelFor3rd)
    (hn : c.UpdateTransfer.Nonce = c2.UpdateTransfer.Nonce) (hu : c.Unlocks = c2.Unlocks)
    (hp : c.Punishes = c2.Punishes) :
    CalcNeedSmtForThisChannel P c = CalcNeedSmtForThisChannel P c2 := by
  unfold CalcNeedSmtForThisChannel
  rw [hn, hu, hp]

/-- The amount an accepted submission without punishes adds when the stored
delegate holds no punish and is not running: the cost of the candidate less
the cost of the stored content. -/
theorem needSmt_after_accept_punish_free (P : Params) (now : Time) (model : ModelDB)
    (c : ChannelFor3rd) (addr : Address)
    (hst : ¬ staleNonce P (DelegatetGet model c.ChannelIdentifier addr) c)
    (hc : c.Punishes = []) :
    needSmtOf (DelegateNewOrUpdateDelegate P now model c addr).2 addr
      = needSmtOf model addr + CalcNeedSmtForThisChannel P c
        - CalcNeedSmtForThisChannel P (DelegatetGet model c.ChannelIdentifier addr).Content := by
  rw [needSmt_after_accept P now model c addr hst]
  have h : CalcNeedSmtForThisChannel P
      (mergeAnnounceDisposed c
        (mergePunish c (DelegatetGet model c.ChannelIdentifier addr))).Content
      = CalcNeedSmtForThisChannel P (DelegatetGet model c.ChannelIdentifier addr).Content := by
    apply CalcNeedSmt_congr <;>
      simp [mergeAnnounceDisposed_eq, mergePunish_eq, freshPunishes, hc]
  rw [h]

/-- From the empty store, after two accepted submissions without punishes for
one key, the credit requirement is the cost of the first after the first and
the cost of the second after the second. -/
theorem two_punish_free_submissions (P : Params) (now1 now2 : Time)
    (c1 c2 : ChannelFor3rd) (addr : Address)
    (hcid : c2.ChannelIdentifier = c1.ChannelIdentifier) (hp1 : c1.Punishes = [])
    (hp2 : c2.Punishes = [])
    (hacc1 : (DelegateNewOrUpdateDelegate P now1 ModelDB.empty c1 addr).1 = none)
    (hacc2 : (DelegateNewOrUpdateDelegate P now2
        (DelegateNewOrUpdateDelegate P now1 ModelDB.empty c1 addr).2 c2 addr).1 = none) :
    needSmtOf (DelegateNewOrUpdateDelegate P now1 ModelDB.empty c1 addr).2 addr
        = CalcNeedSmtForThisChannel P c1 ∧
      needSmtOf (DelegateNewOrUpdateDelegate P now2
          (DelegateNewOrUpdateDelegate P now1 ModelDB.empty c1 addr).2 c2 addr).2 addr
        = CalcNeedSmtForThisChannel P c2 := by
  have hst1 := not_stale_of_accept P now1 _ c1 addr hacc1
  have hst2 := not_stale_of_accept P now2 _ c2 addr hacc2
  have hz : DelegatetGet ModelDB.empty c1.ChannelIdentifier addr = Delegate.zero := rfl
  have hn1 : needSmtOf (DelegateNewOrUpdateDelegate P now1 ModelDB.empty c1 addr).2 addr
      = CalcNeedSmtForThisChannel P c1 := by
    rw [needSmt_after_accept_punish_free P now1 _ c1 addr hst1 hp1, hz]
    simp [needSmtOf, AccountGetAccount, ModelDB.empty, CalcNeedSmtForThisChannel,
      Delegate.zero, ChannelFor3rd.zero, UpdateTransfer.zero]
  refine ⟨hn1, ?_⟩
  rw [needSmt_after_accept_punish_free P now2 _ c2 addr hst2 hp2, hn1, hcid,
    get_after_accept P now1 _ c1 addr hst1, hz]
  have hcost : CalcNeedSmtForThisChannel P (savedDelegate now1 c1 addr Delegate.zero).Content
      = CalcNeedSmtForThisChannel P c1 := by
    apply CalcNeedSmt_congr <;>
      simp [savedDelegate, overwriteContent, DelegateStatusRunning, Delegate.zero,
        ChannelFor3rd.zero, mergeAnnounceDisposed_eq, mergePunish_eq, freshPunishes, hp1]
  rw [hcost]
  omega

/-- Submission `A` of the scenario is accepted from the empty store. -/
theorem exStoreAB_acceptA (P : Params) (now1 : Time) :
    (DelegateNewOrUpdateDelegate P now1 ModelDB.empty (exCandidate 1 [] []) exAddr).1 = none := by
  apply accept_of_not_stale
  intro h
  exact absurd h.2.2 (by decide)

/-- Submission `B` of the scenario is accepted after `A`. -/
theorem exStoreAB_acceptB (P : Params) (now1 now2 : Time) :
    (DelegateNewOrUpdateDelegate P now2 (exStore P now1 1)
      (exCandidate 2 [exUnlock, exUnlock] []) exAddr).1 = none := by
  apply accept_of_not_stale
  intro h
  have h3 := h.2.2
  have hg := exStore_get P now1 1 (by decide)
  have hc : (exCandidate 2 [exUnlock, exUnlock] []).ChannelIdentifier = exChannel := rfl
  rw [hc, hg] at h3
  simp [savedDelegate, overwriteContent, exCandidate, DelegateStatusRunning,
    Delegate.zero] at h3

/-- The delegate stored after `A` and `B`. -/
theorem exStoreAB_get (P : Params) (now1 now2 : Time) :
    DelegatetGet (exStoreAB P now1 now2) exChannel exAddr
      = savedDelegate now2 (exCandidate 2 [exUnlock, exUnlock] []) exAddr
          (savedDelegate now1 (exCandidate 1 [] []) exAddr Delegate.zero) := by
  have hst := not_stale_of_accept P now2 _ _ _ (exStoreAB_acceptB P now1 now2)
  have hg := get_after_accept P now2 (exStore P now1 1)
    (exCandidate 2 [exUnlock, exUnlock] []) exAddr hst
  have hc : (exCandidate 2 [exUnlock, exUnlock] []).ChannelIdentifier = exChannel := rfl
  rw [hc, exStore_get P now1 1 (by decide)] at hg
  exact hg

/-- The credit requirement after `A` and `B`. -/
theorem exStoreAB_needSmt (P : Params) (now1 now2 : Time) :
    needSmtOf (exStoreAB P now1 now2) exAddr = P.SmtUpdateTransfer + 2 * P.SmtUnlock := by
  have h := (two_punish_free_submissions P now1 now2 (exCandidate 1 [] [])
    (exCandidate 2 [exUnlock, exUnlock] []) exAddr rfl rfl rfl (exStoreAB_acceptA P now1)
    (exStoreAB_acceptB P now1 now2)).2
  unfold exStoreAB exStore
  rw [h]
  simp [CalcNeedSmtForThisChannel, exCandidate]
  ring

/-- C12. From the empty store, submitting `A` (nonce 1, no unlock, no punish) for
a channel and a delegator leaves the account with `NeedSmt = SmtUpdateTransfer`,
and then submitting `B` (nonce 2, two unlocks, no punish) for the same key
leaves it with `SmtUpdateTransfer + 2 * SmtUnlock`. In general, after two
accepted submissions without punishes for one key, made in a row from the empty
store, `NeedSmt` is the cost of the second: the cost of the first has been
replaced, not added to. -/
theorem C12_second_cost_replaces_first (P : Params) (now1 now2 : Time) :
    needSmtOf (DelegateNewOrUpdateDelegate P now1 ModelDB.empty (exCandidate 1 [] [])
        exAddr).2 exAddr = P.SmtUpdateTransfer ∧
    needSmtOf (DelegateNewOrUpdateDelegate P now2
        (DelegateNewOrUpdateDelegate P now1 ModelDB.empty (exCandidate 1 [] []) exAddr).2
        (exCandidate 2 [exUnlock, exUnlock] []) exAddr).2 exAddr
      = P.SmtUpdateTransfer + 2 * P.SmtUnlock ∧
    (∀ (c1 c2 : ChannelFor3rd) (addr : Address),
      c2.ChannelIdentifier = c1.ChannelIdentifier → c1.Punishes = [] → c2.Punishes = [] →
      (DelegateNewOrUpdateDelegate P now1 ModelDB.empty c1 addr).1 = none →
      (DelegateNewOrUpdateDelegate P now2
        (DelegateNewOrUpdateDelegate P now1 ModelDB.empty c1 addr).2 c2 addr).1 = none →
      needSmtOf (DelegateNewOrUpdateDelegate P now2
          (DelegateNewOrUpdateDelegate P now1 ModelDB.empty c1 addr).2 c2 addr).2 addr
        = CalcNeedSmtForThisChannel P c2) := by
  have hA := exStoreAB_acceptA P now1
  have hB : (DelegateNewOrUpdateDelegate P now2
      (DelegateNewOrUpdateDelegate P now1 ModelDB.empty (exCandidate 1 [] []) exAddr).2
      (exCandidate 2 [exUnlock, exUnlock] []) exAddr).1 = none := exStoreAB_acceptB P now1 now2
  have h := two_punish_free_submissions P now1 now2 (exCandidate 1 [] [])
    (exCandidate 2 [exUnlock, exUnlock] []) exAddr rfl rfl rfl hA hB
  refine ⟨?_, ?_, fun c1 c2 addr h1 h2 h3 h4 h5 =>
    (two_punish_free_submissions P now1 now2 c1 c2 addr h1 h2 h3 h4 h5).2⟩
  · rw [h.1]
    simp [CalcNeedSmtForThisChannel, exCandidate]
  · rw [h.2]
    simp [CalcNeedSmtForThisChannel, exCandidate]
    ring

/-- C12, at a concrete input: under unit costs 100, 10 and 1, a first submission
with nonce 1 and one unlock (cost 110) followed by a second with nonce 3 and no
unlock leaves `NeedSmt` equal to the cost of the second. -/
theorem C12_second_cost_replaces_first_witness :
    needSmtOf (DelegateNewOrUpdateDelegate exParams 2
        (DelegateNewOrUpdateDelegate exParams 1 ModelDB.empty (exCandidate 1 [exUnlock] [])
          exAddr).2 (exCandidate 3 [] []) exAddr).2 exAddr
      = CalcNeedSmtForThisChannel exParams (exCandidate 3 [] []) :=
  (C12_second_cost_replaces_first exParams 1 2).2.2 (exCandidate 1 [exUnlock] [])
    (exCandidate 3 [] []) exAddr rfl rfl rfl (by decide) (by decide)

/-- C13, the claim as stated fails: under unit costs 100, 10 and 1 with debug
mode off, after `A` (nonce 1) and `B` (nonce 2, two unlocks) a punish-only
update whose nonce field is absent (zero) returns an error, and `NeedSmt` stays
120 instead of growing by `SmtPunish = 1`. -/
theorem C13_punish_only_update_without_nonce_rejected :
    (DelegateNewOrUpdateDelegate exParams 3 (exStoreAB exParams 1 2)
        (exCandidate 0 [] [exPunish 1]) exAddr).1 ≠ none ∧
    needSmtOf (exStoreAB exParams 1 2) exAddr = 120 ∧
    needSmtOf (DelegateNewOrUpdateDelegate exParams 3 (exStoreAB exParams 1 2)
        (exCandidate 0 [] [exPunish 1]) exAddr).2 exAddr = 120 ∧
    ¬ (needSmtOf (DelegateNewOrUpdateDelegate exParams 3 (exStoreAB exParams 1 2)
          (exCandidate 0 [] [exPunish 1]) exAddr).2 exAddr
        = needSmtOf (exStoreAB exParams 1 2) exAddr + exParams.SmtPunish) := by
  refine ⟨by decide, by decide, by decide, by decide⟩

/-- C13, as amended. After `A` (nonce 1) and `B` (nonce 2, two unlocks) have been
submitted for a key from the empty store, the delegate is in `Init` with stored
nonce 2; outside debug mode a punish-only update for the key whose nonce is
below 2 (an absent nonce is zero) returns an error, the store is unchanged and
`NeedSmt` stays `SmtUpdateTransfer + 2 * SmtUnlock`. -/
theorem C13_stale_punish_only_update_changes_nothing (P : Params) (now1 now2 now3 : Time)
    (c : ChannelFor3rd) (hD : P.DebugMode = false) (hc : c.ChannelIdentifier = exChannel)
    (hn : c.UpdateTransfer.Nonce < 2) :
    (DelegateNewOrUpdateDelegate P now3 (exStoreAB P now1 now2) c exAddr).1 ≠ none ∧
    (DelegateNewOrUpdateDelegate P now3 (exStoreAB P now1 now2) c exAddr).2
      = exStoreAB P now1 now2 ∧
    needSmtOf (DelegateNewOrUpdateDelegate P now3 (exStoreAB P now1 now2) c exAddr).2 exAddr
      = P.SmtUpdateTransfer + 2 * P.SmtUnlock := by
  have hst : staleNonce P (DelegatetGet (exStoreAB P now1 now2) c.ChannelIdentifier exAddr) c := by
    rw [hc, exStoreAB_get]
    refine ⟨hD, rfl, ?_⟩
    simp [savedDelegate, overwriteContent, exCandidate, DelegateStatusRunning, Delegate.zero]
    exact hn
  have h := submit_reject P now3 (exStoreAB P now1 now2) c exAddr hst
  refine ⟨h.1, h.2, ?_⟩
  rw [h.2, exStoreAB_needSmt]

/-- C13 as amended, at a concrete input: debug mode off, the punish-only update
carries no nonce and one punish record. -/
theorem C13_stale_punish_only_update_changes_nothing_witness :
    (DelegateNewOrUpdateDelegate exParams 3 (exStoreAB exParams 1 2)
        (exCandidate 0 [] [exPunish 1]) exAddr).2 = exStoreAB exParams 1 2 :=
  (C13_stale_punish_only_update_changes_nothing exParams 1 2 3 (exCandidate 0 [] [exPunish 1])
    rfl rfl (by decide)).2.1

/-! ### Submissions while running -/

/-- A submission for a key whose delegate is running keeps the status, the
balance proof and the unlocks of the delegate. -/
theorem submit_running_keeps (P : Params) (now : Time) (model : ModelDB) (c : ChannelFor3rd)
    (addr : Address)
    (hrun : (DelegatetGet model c.ChannelIdentifier addr).Status = DelegateStatusRunning) :
    (DelegatetGet (DelegateNewOrUpdateDelegate P now model c addr).2
        c.ChannelIdentifier addr).Status = DelegateStatusRunning ∧
    (DelegatetGet (DelegateNewOrUpdateDelegate P now model c addr).2
        c.ChannelIdentifier addr).Content.UpdateTransfer
      = (DelegatetGet model c.ChannelIdentifier addr).Content.UpdateTransfer ∧
    (DelegatetGet (DelegateNewOrUpdateDelegate P now model c addr).2
        c.ChannelIdentifier addr).Content.Unlocks
      = (DelegatetGet model c.ChannelIdentifier addr).Content.Unlocks := by
  have hs : ¬ staleNonce P (DelegatetGet model c.ChannelIdentifier addr) c := by
    intro h
    have h2 := h.2.1
    rw [hrun] at h2
    exact absurd h2 (by decide)
  rw [get_after_accept P now model c addr hs]
  refine ⟨hrun, ?_, ?_⟩ <;>
    simp [savedDelegate, hrun, mergeAnnounceDisposed_eq, mergePunish_eq]

/-- The same over a run of submissions for the key. -/
theorem submitAll_running_keeps (P : Params) (addr : Address) (cid : Hash)
    (subs : List (Time × ChannelFor3rd))
    (hsubs : ∀ x ∈ subs, x.2.ChannelIdentifier = cid) (model : ModelDB)
    (hrun : (DelegatetGet model cid addr).Status = DelegateStatusRunning) :
    (DelegatetGet (submitAll P addr model subs) cid addr).Status = DelegateStatusRunning ∧
    (DelegatetGet (submitAll P addr model subs) cid addr).Content.UpdateTransfer
      = (DelegatetGet model cid addr).Content.UpdateTransfer ∧
    (DelegatetGet (submitAll P addr model subs) cid addr).Content.Unlocks
      = (DelegatetGet model cid addr).Content.Unlocks := by
  induction subs generalizing model with
  | nil => exact ⟨hrun, rfl, rfl⟩
  | cons x xs ih =>
    have hx : x.2.ChannelIdentifier = cid := hsubs x (List.mem_cons_self x xs)
    have hstep := submit_running_keeps P x.1 model x.2 addr (by rw [hx]; exact hrun)
    rw [hx] at hstep
    have hrest := ih (fun y hy => hsubs y (List.mem_cons_of_mem x hy))
      (DelegateNewOrUpdateDelegate P x.1 model x.2 addr).2 hstep.1
    unfold submitAll at hrest ⊢
    rw [List.foldl_cons]
    exact ⟨hrest.1, hrest.2.1.trans hstep.2.1, hrest.2.2.trans hstep.2.2⟩

/-- C17. For a delegate `d` stored under the key of `(cAddr, addr)`,
`MarkDelegateRunning` returns no error and the delegate read back afterwards is
`d` with `Status` set to `Running` and every other field as it was; after it,
whatever run of submissions is made for that key, the delegate read back is
still running and carries the `UpdateTransfer` and the `Unlocks` of `d`. -/
theorem C17_mark_running_freezes_content (model : ModelDB) (cAddr : Hash) (addr : Address)
    (d : Delegate)
    (hex : dbOneDelegate model.delegates (delegateKey cAddr addr) = some d) :
    (MarkDelegateRunning model cAddr addr).1 = none ∧
    DelegatetGet (MarkDelegateRunning model cAddr addr).2 cAddr addr
      = { d with Status := DelegateStatusRunning } ∧
    ∀ (P : Params) (subs : List (Time × ChannelFor3rd)),
      (∀ x ∈ subs, x.2.ChannelIdentifier = cAddr) →
      (DelegatetGet (submitAll P addr (MarkDelegateRunning model cAddr addr).2 subs)
          cAddr addr).Status = DelegateStatusRunning ∧
      (DelegatetGet (submitAll P addr (MarkDelegateRunning model cAddr addr).2 subs)
          cAddr addr).Content.UpdateTransfer = d.Content.UpdateTransfer ∧
      (DelegatetGet (submitAll P addr (MarkDelegateRunning model cAddr addr).2 subs)
          cAddr addr).Content.Unlocks = d.Content.Unlocks := by
  have hkey : d.Key = delegateKey cAddr addr := by
    have := List.find?_some hex
    simpa using this
  have hget : DelegatetGet (MarkDelegateRunning model cAddr addr).2 cAddr addr
      = { d with Status := DelegateStatusRunning } := by
    have hsave := dbOneDelegate_save model.delegates { d with Status := DelegateStatusRunning }
    dsimp only at hsave
    simp only [MarkDelegateRunning, DelegatetGet, DelegatetGetByKey, hex]
    rw [← hkey, hsave]
  refine ⟨rfl, hget, ?_⟩
  intro P subs hsubs
  have h := submitAll_running_keeps P addr cAddr subs hsubs
    (MarkDelegateRunning model cAddr addr).2 (by rw [hget])
  rw [hget] at h
  exact h

/-- C17, at a concrete input: the delegate stored with nonce 1 is marked
running; a later submission with nonce 5 and one unlock leaves the stored
unlock list empty. -/
theorem C17_mark_running_freezes_content_witness :
    (DelegatetGet (submitAll exParams exAddr
        (MarkDelegateRunning (exStore exParams 0 1) exChannel exAddr).2
        [(1, exCandidate 5 [exUnlock] [])]) exChannel exAddr).Content.Unlocks = [] :=
  ((C17_mark_running_freezes_content (exStore exParams 0 1) exChannel exAddr
    (savedDelegate 0 (exCandidate 1 [] []) exAddr Delegate.zero) (by decide)).2.2 exParams
    [(1, exCandidate 5 [exUnlock] [])] (by decide)).2.2

/-! ### A run that lowers the credit requirement -/

/-- With the delegate of the first submission (nonce 1, one punish) stored, a
submission with nonce 1 and no punish is accepted, stores the same delegate
again and lowers the credit requirement by `SmtPunish`. -/
theorem resubmit_without_punish (P : Params) (now : Time) (model : ModelDB)
    (hget : DelegatetGet model exChannel exAddr
      = savedDelegate now (exCandidate 1 [] [exPunish 1]) exAddr Delegate.zero) :
    DelegatetGet (DelegateNewOrUpdateDelegate P now model (exCandidate 1 [] []) exAddr).2
        exChannel exAddr
      = savedDelegate now (exCandidate 1 [] [exPunish 1]) exAddr Delegate.zero ∧
    needSmtOf (DelegateNewOrUpdateDelegate P now model (exCandidate 1 [] []) exAddr).2 exAddr
      = needSmtOf model exAddr - P.SmtPunish := by
  have hc : (exCandidate 1 [] []).ChannelIdentifier = exChannel := rfl
  have hst : ¬ staleNonce P (DelegatetGet model (exCandidate 1 [] []).ChannelIdentifier exAddr)
      (exCandidate 1 [] []) := by
    rw [hc, hget]
    intro h
    have h3 := h.2.2
    simp [savedDelegate, overwriteContent, exCandidate, DelegateStatusRunning,
      Delegate.zero] at h3
  constructor
  · have hg := get_after_accept P now model (exCandidate 1 [] []) exAddr hst
    rw [hc, hget] at hg
    rw [hg]
    rfl
  · rw [needSmt_after_accept P now model (exCandidate 1 [] []) exAddr hst, hc, hget]
    simp [CalcNeedSmtForThisChannel, exCandidate, savedDelegate, overwriteContent,
      DelegateStatusRunning, freshPunishes, Delegate.zero, ChannelFor3rd.zero,
      UpdateTransfer.zero, mergeAnnounceDisposed_eq, mergePunish_eq]
    ring

/-- The same `n` times in a row: the credit requirement falls by `n * SmtPunish`. -/
theorem resubmit_without_punish_run (P : Params) (now : Time) (n : Nat) (model : ModelDB)
    (hget : DelegatetGet model exChannel exAddr
      = savedDelegate now (exCandidate 1 [] [exPunish 1]) exAddr Delegate.zero) :
    needSmtOf (submitAll P exAddr model (List.replicate n (now, exCandidate 1 [] []))) exAddr
      = needSmtOf model exAddr - (n : Int) * P.SmtPunish := by
  induction n generalizing model with
  | zero => simp [submitAll]
  | succ k ih =>
    have hstep := resubmit_without_punish P now model hget
    have hrest := ih (DelegateNewOrUpdateDelegate P now model (exCandidate 1 [] []) exAddr).2
      hstep.1
    unfold submitAll at hrest ⊢
    rw [List.replicate_succ, List.foldl_cons, hrest, hstep.2]
    push_cast
    ring

/-- C19 (fails on the code). Evaluation at the failing input: from the empty
store, a submission with nonce 1 and one punish record followed by `n`
submissions with nonce 1 and no punish record, all for one key, leaves the
account with `NeedSmt = SmtUpdateTransfer - n * SmtPunish`; under the
non-negative unit costs 100, 10 and 1 this is `-1` after 101 such submissions. -/
theorem C19_needSmt_falls_below_zero (P : Params) (now : Time) (n : Nat) :
    needSmtOf (submitAll P exAddr
        (DelegateNewOrUpdateDelegate P now ModelDB.empty (exCandidate 1 [] [exPunish 1])
          exAddr).2
        (List.replicate n (now, exCandidate 1 [] []))) exAddr
      = P.SmtUpdateTransfer - (n : Int) * P.SmtPunish ∧
    needSmtOf (submitAll exParams exAddr
        (DelegateNewOrUpdateDelegate exParams now ModelDB.empty (exCandidate 1 [] [exPunish 1])
          exAddr).2
        (List.replicate 101 (now, exCandidate 1 [] []))) exAddr = -1 := by
  have hz : DelegatetGet ModelDB.empty (exCandidate 1 [] [exPunish 1]).ChannelIdentifier exAddr
      = Delegate.zero := rfl
  have hs : ∀ Q : Params, ¬ staleNonce Q
      (DelegatetGet ModelDB.empty (exCandidate 1 [] [exPunish 1]).ChannelIdentifier exAddr)
      (exCandidate 1 [] [exPunish 1]) := by
    intro Q
    rw [hz]
    intro h
    exact absurd h.2.2 (by decide)
  have hc : (exCandidate 1 [] [exPunish 1]).ChannelIdentifier = exChannel := rfl
  have hfirst : ∀ Q : Params,
      needSmtOf (DelegateNewOrUpdateDelegate Q now ModelDB.empty (exCandidate 1 [] [exPunish 1])
        exAddr).2 exAddr = Q.SmtUpdateTransfer := by
    intro Q
    rw [needSmt_after_accept Q now _ _ _ (hs Q), hz, mergeAnnounceDisposed_eq, mergePunish_eq]
    simp [needSmtOf, AccountGetAccount, ModelDB.empty, CalcNeedSmtForThisChannel, exCandidate,
      freshPunishes, Delegate.zero, ChannelFor3rd.zero, UpdateTransfer.zero]
  have hrun : ∀ (Q : Params) (k : Nat),
      needSmtOf (submitAll Q exAddr
          (DelegateNewOrUpdateDelegate Q now ModelDB.empty (exCandidate 1 [] [exPunish 1])
            exAddr).2
          (List.replicate k (now, exCandidate 1 [] []))) exAddr
        = Q.SmtUpdateTransfer - (k : Int) * Q.SmtPunish := by
    intro Q k
    have hg := get_after_accept Q now ModelDB.empty (exCandidate 1 [] [exPunish 1]) exAddr (hs Q)
    rw [hz, hc] at hg
    rw [resubmit_without_punish_run Q now k _ hg, hfirst Q]
  refine ⟨hrun P n, ?_⟩
  rw [hrun exParams 101]
  rfl

/-! ### Archiving -/

/-- A record saved in the bucket of removed delegates is in the bucket. -/
theorem mem_dbUpsertRemoved (t : List RemovedDelegate) (rd : RemovedDelegate) :
    rd ∈ dbUpsertRemoved t rd := by
  induction t with
  | nil => simp [dbUpsertRemoved]
  | cons x xs ih =>
    unfold dbUpsertRemoved
    by_cases hx : x.Key = rd.Key
    · simp [hx]
    · simp [hx, ih]

/-- After the removal of the records of a key, no record is found under it. -/
theorem dbOneDelegate_filter (t : List Delegate) (key : List Byte) :
    dbOneDelegate (t.filter (fun x => decide (x.Key ≠ key))) key = none := by
  unfold dbOneDelegate
  rw [List.find?_eq_none]
  intro x hx
  have := (List.mem_filter.mp hx).2
  simpa using this

/-- C14, the claim as stated fails: the store holds the delegate `d` of one
submission, the delete succeeds and the archive save fails; the call returns an
error, the archive is unchanged, and `d` is no longer found in the active
table, which therefore is not unchanged. -/
theorem C14_failed_archive_save_after_delete :
    (DelegateDeleteDelegate none (some "save failed") (exStore exParams 0 1)
        (DelegatetGet (exStore exParams 0 1) exChannel exAddr)).1 ≠ none ∧
    dbOneDelegate (exStore exParams 0 1).delegates (delegateKey exChannel exAddr)
      = some (DelegatetGet (exStore exParams 0 1) exChannel exAddr) ∧
    dbOneDelegate
        (DelegateDeleteDelegate none (some "save failed") (exStore exParams 0 1)
          (DelegatetGet (exStore exParams 0 1) exChannel exAddr)).2.delegates
        (delegateKey exChannel exAddr) = none ∧
    (DelegateDeleteDelegate none (some "save failed") (exStore exParams 0 1)
        (DelegatetGet (exStore exParams 0 1) exChannel exAddr)).2.delegates
      ≠ (exStore exParams 0 1).delegates ∧
    (DelegateDeleteDelegate none (some "save failed") (exStore exParams 0 1)
        (DelegatetGet (exStore exParams 0 1) exChannel exAddr)).2.removedDelegates
      = (exStore exParams 0 1).removedDelegates := by
  refine ⟨by decide, by decide, by decide, by decide, by decide⟩

/-- C14, as amended. Whatever the store answers to the two writes: when
`DelegateDeleteDelegate` returns no error, no delegate is found under the key of
`d` in the active table and the archive holds a `RemovedDelegate` whose `D` is
`d`; when it returns an error, the archive is unchanged; and when the error is
the one of the delete, the whole store is unchanged. -/
theorem C14_archive_outcomes (deleteFault saveFault : Option String) (model : ModelDB)
    (d : Delegate) :
    ((DelegateDeleteDelegate deleteFault saveFault model d).1 = none →
      dbOneDelegate (DelegateDeleteDelegate deleteFault saveFault model d).2.delegates d.Key
          = none ∧
        ({ Key := removedKey d, D := d } : RemovedDelegate)
          ∈ (DelegateDeleteDelegate deleteFault saveFault model d).2.removedDelegates) ∧
    ((DelegateDeleteDelegate deleteFault saveFault model d).1 ≠ none →
      (DelegateDeleteDelegate deleteFault saveFault model d).2.removedDelegates
        = model.removedDelegates) ∧
    ((dbDeleteStruct deleteFault model.delegates d).1 ≠ none →
      (DelegateDeleteDelegate deleteFault saveFault model d).1 ≠ none ∧
        (DelegateDeleteDelegate deleteFault saveFault model d).2 = model) := by
  unfold DelegateDeleteDelegate dbDeleteStruct dbSaveRemoved removedKey
  cases deleteFault with
  | some e => simp
  | none =>
    by_cases hany : model.delegates.any (fun x => decide (x.Key = d.Key)) = true
    · cases saveFault with
      | some e => simp [hany]
      | none =>
        simp only [hany, if_true]
        refine ⟨fun _ => ⟨dbOneDelegate_filter _ _, ?_⟩, fun h => absurd rfl h,
          fun h => absurd rfl h⟩
        simpa using mem_dbUpsertRemoved model.removedDelegates
          { Key := d.ChannelIdentifier ++ d.Address.val ++ int64LittleEndian d.OpenBlockNumber,
            D := d }
    · simp [hany]

/-- C14 as amended, at a concrete input: both writes succeed on the store of one
submission; the delegate is no longer found in the active table. -/
theorem C14_archive_outcomes_witness :
    dbOneDelegate
        (DelegateDeleteDelegate none none (exStore exParams 0 1)
          (DelegatetGet (exStore exParams 0 1) exChannel exAddr)).2.delegates
        (DelegatetGet (exStore exParams 0 1) exChannel exAddr).Key = none :=
  ((C14_archive_outcomes none none (exStore exParams 0 1)
    (DelegatetGet (exStore exParams 0 1) exChannel exAddr)).1 (by decide)).1

end Models
